import Mathlib

/-!
# Verification of the Swagger-to-LLM pipeline (`openapi` package, `main.go`)

Shallow embedding of the data model, reference resolver, dialect normalizer
and text renderer of the repository's single Go source file.

Modelling conventions:
* Go pointers (`*T`) that may be nil are embedded as `Option T`.
* Go maps (`map[string]*T`) are embedded as association lists
  `List (String × Option T)`; Go map lookup `m[k]` with its `ok` flag is
  `lookup m k : Option (Option T)` (outer `none` = key absent, inner
  `none` = key present with a nil value).  Go guarantees unique keys and a
  nondeterministic iteration order; the association list fixes one order.
* In-place mutation is embedded as explicit state passing: each resolver
  function returns the updated value together with the outcome.  Go's
  `return err` in mid-walk is embedded by returning the partially updated
  state with the error, leaving the unprocessed remainder unchanged.
* Go text is embedded as `String` (character-based; all inputs of interest
  are ASCII, where Go's byte indices and lengths coincide with characters).
-/

namespace SwaggerToLLM

/-- `Schema` struct: a type string and a `$ref` string. -/
structure Schema where
  type : String
  ref : String
deriving Repr, DecidableEq

/-- `MediaType` struct: holds an optional (`*Schema`) schema. -/
structure MediaType where
  schema : Option Schema
deriving Repr, DecidableEq

/-- `Parameter` struct.  The Go field `In` is embedded as `in_` (`in` is a
Lean keyword). -/
structure Parameter where
  name : String
  in_ : String
  required : Bool
  type : String
  schema : Option Schema
  description : String
  ref : String
deriving Repr, DecidableEq

/-- `RequestBody` struct; `Content` is `map[string]*MediaType`. -/
structure RequestBody where
  description : String
  content : List (String × Option MediaType)
  ref : String
deriving Repr, DecidableEq

/-- `Response` struct; `Content` is `map[string]*MediaType`. -/
structure Response where
  description : String
  content : List (String × Option MediaType)
  ref : String
deriving Repr, DecidableEq

/-- `Components` struct: the four sub-tables of reusable objects. -/
structure Components where
  schemas : List (String × Option Schema)
  parameters : List (String × Option Parameter)
  requestBodies : List (String × Option RequestBody)
  responses : List (String × Option Response)
deriving Repr, DecidableEq

/-- `Endpoint` struct.  `Parameters` is `[]*Parameter` (nullable slots),
`Responses` is `map[string]*Response`. -/
structure Endpoint where
  path : String
  method : String
  summary : String
  description : String
  parameters : List (Option Parameter)
  requestBody : Option RequestBody
  responses : List (String × Option Response)
deriving Repr, DecidableEq

/-- `APIDocument` struct: the root of the simplified API spec. -/
structure APIDocument where
  title : String
  version : String
  description : String
  endpoints : List Endpoint
  servers : List String
  components : Option Components
deriving Repr, DecidableEq

/-- Go map lookup `m[k]` on the association-list embedding: first entry with
the given key, or `none` when the key is absent. -/
def lookup {α : Type} (m : List (String × α)) (k : String) : Option α :=
  (m.find? (fun kv => kv.1 = k)).map (fun kv => kv.2)

/-- `extractNameFromRef`: `strings.TrimPrefix(ref, "#/components/"+componentType+"/")`.
`TrimPrefix` strips the prefix when present and otherwise returns the string
unchanged — no validation of the descriptor shape.  (Character-level
embedding of the byte-level Go operations, equivalent on ASCII prefixes.) -/
def extractNameFromRef (ref componentType : String) : String :=
  let pfx := "#/components/" ++ componentType ++ "/"
  if pfx.toList.isPrefixOf ref.toList then
    List.asString (ref.toList.drop pfx.toList.length)
  else ref

/-- Outcome of a resolution walk.  `err` is the `error` returned by Go;
`nilPanic` marks the one place where the Go code dereferences a nil pointer
(a requestBody reference that resolves to a nil table value). -/
inductive ResolveOutcome where
  | ok
  | err (msg : String)
  | nilPanic
deriving Repr, DecidableEq

/-- Lift the `Option String` error of a sub-walk into a `ResolveOutcome`. -/
def ofErr : Option String → ResolveOutcome
  | none => .ok
  | some m => .err m

/-- `resolveSchema`: if the schema carries a `$ref`, replace it by the
looked-up `Components.Schemas` entry (`*s = resolved`, which may be nil) or
fail; a schema without a `$ref`, or a nil schema pointer, is left alone.
Returns the updated slot and the error, if any (on error the slot is
unchanged, as in Go). -/
def resolveSchema (comps : Components) (s : Option Schema) :
    Option Schema × Option String :=
  match s with
  | none => (none, none)
  | some sch =>
    if sch.ref ≠ "" then
      match lookup comps.schemas (extractNameFromRef sch.ref "schemas") with
      | some v => (v, none)
      | none => (some sch, some ("unresolved schema reference: " ++ sch.ref))
    else (some sch, none)

/-- One parameter slot of the `for j, param := range ep.Parameters` loop.
Nil slots are skipped.  On a `$ref` hit the slot is assigned the table value
(`ep.Parameters[j] = resolved`) *before* `resolveSchema(&param.Schema, doc)`
runs; Go's loop variable `param` still points at the pre-replacement
Parameter, so the schema resolution acts on the old, now-detached object:
only its error is observable, the slot keeps the table value with its schema
untouched.  On a `$ref` miss the function returns at once. -/
def resolveParamSlot (comps : Components) (slot : Option Parameter) :
    Option Parameter × Option String :=
  match slot with
  | none => (none, none)
  | some param =>
    if param.ref ≠ "" then
      match lookup comps.parameters (extractNameFromRef param.ref "parameters") with
      | some v =>
        let (_, e) := resolveSchema comps param.schema
        (v, e)
      | none =>
        (some param, some ("unresolved parameter reference: " ++ param.ref))
    else
      let (s', e) := resolveSchema comps param.schema
      (some { param with schema := s' }, e)

/-- Walk a list with a state-updating step, stopping at the first error:
the element at the error keeps whatever partial update the step produced
and the remainder of the list is returned unchanged (Go's `return err`
inside the range loop). -/
def resolveList {α : Type} (f : α → α × Option String) :
    List α → List α × Option String
  | [] => ([], none)
  | x :: xs =>
    match f x with
    | (x', some e) => (x' :: xs, some e)
    | (x', none) =>
      let (xs', e) := resolveList f xs
      (x' :: xs', e)

/-- One media-type entry of a `Content` map: `if mt != nil && mt.Schema != nil`
then resolve the schema in place. -/
def resolveMediaEntry (comps : Components) (kv : String × Option MediaType) :
    (String × Option MediaType) × Option String :=
  match kv with
  | (k, none) => ((k, none), none)
  | (k, some mt) =>
    match mt.schema with
    | none => ((k, some mt), none)
    | some _ =>
      let (s', e) := resolveSchema comps mt.schema
      ((k, some { mt with schema := s' }), e)

/-- The `for _, mt := range …Content` walk. -/
def resolveContent (comps : Components) (c : List (String × Option MediaType)) :
    List (String × Option MediaType) × Option String :=
  resolveList (resolveMediaEntry comps) c

/-- Replace the value stored under an existing key of the requestBodies
sub-table (the write-back caused by mutating a shared `*RequestBody`). -/
def updateRB (comps : Components) (name : String) (rb : RequestBody) : Components :=
  { comps with
    requestBodies := comps.requestBodies.map
      (fun kv => if kv.1 = name then (kv.1, some rb) else kv) }

/-- The requestBody step of `ResolveReferences`.  On a `$ref` hit Go assigns
`ep.RequestBody = resolved` (the table pointer) and then walks
`ep.RequestBody.Content` — i.e. the *just-replaced* object, which is shared
with the components table, so resolving its media-type schemas also mutates
the table entry (embedded here as an explicit write-back via `updateRB`).
A hit on a nil table value makes that walk dereference a nil pointer
(`nilPanic`).  On a miss the function returns the error at once. -/
def resolveRequestBody (comps : Components) (slot : Option RequestBody) :
    Option RequestBody × Components × ResolveOutcome :=
  match slot with
  | none => (none, comps, .ok)
  | some rb =>
    if rb.ref ≠ "" then
      let name := extractNameFromRef rb.ref "requestBodies"
      match lookup comps.requestBodies name with
      | none => (some rb, comps, .err ("unresolved requestBody reference: " ++ rb.ref))
      | some none => (none, comps, .nilPanic)
      | some (some target) =>
        let (c', e) := resolveContent comps target.content
        let rb' := { target with content := c' }
        (some rb', updateRB comps name rb', ofErr e)
    else
      let (c', e) := resolveContent comps rb.content
      (some { rb with content := c' }, comps, ofErr e)

/-- One entry of the `for code, resp := range ep.Responses` loop.  Nil
values are skipped.  On a `$ref` hit the entry is assigned the table value
(`ep.Responses[code] = resolved`); Go's loop variable `resp` still points at
the pre-replacement Response, so the media-type walk that follows touches
the old object's content — only its error is observable and the entry keeps
the table value with its content untouched. -/
def resolveResponseEntry (comps : Components) (kv : String × Option Response) :
    (String × Option Response) × Option String :=
  match kv with
  | (code, none) => ((code, none), none)
  | (code, some resp) =>
    if resp.ref ≠ "" then
      match lookup comps.responses (extractNameFromRef resp.ref "responses") with
      | some v =>
        let (_, e) := resolveContent comps resp.content
        ((code, v), e)
      | none =>
        ((code, some resp), some ("unresolved response reference: " ++ resp.ref))
    else
      let (c', e) := resolveContent comps resp.content
      ((code, some { resp with content := c' }), e)

/-- The body of the per-endpoint iteration of `ResolveReferences`:
parameters, then requestBody, then responses, stopping at the first
error. -/
def resolveEndpoint (comps : Components) (ep : Endpoint) :
    Endpoint × Components × ResolveOutcome :=
  let (ps, e1) := resolveList (resolveParamSlot comps) ep.parameters
  match e1 with
  | some m => ({ ep with parameters := ps }, comps, .err m)
  | none =>
    let (rb', comps', out2) := resolveRequestBody comps ep.requestBody
    match out2 with
    | .ok =>
      let (rs, e3) := resolveList (resolveResponseEntry comps') ep.responses
      ({ ep with parameters := ps, requestBody := rb', responses := rs },
        comps', ofErr e3)
    | bad => ({ ep with parameters := ps, requestBody := rb' }, comps', bad)

/-- The `for i := range doc.Endpoints` loop, threading the components table
(mutated by requestBody write-backs) and stopping at the first error. -/
def resolveEndpoints (comps : Components) :
    List Endpoint → List Endpoint × Components × ResolveOutcome
  | [] => ([], comps, .ok)
  | ep :: rest =>
    match resolveEndpoint comps ep with
    | (ep', comps', .ok) =>
      let (rest', comps'', out) := resolveEndpoints comps' rest
      (ep' :: rest', comps'', out)
    | (ep', comps', bad) => (ep' :: rest, comps', bad)

/-- `ResolveReferences`: returns nil at once when the document has no
Components table; otherwise walks every endpoint.  The returned document is
the in-place mutated one — on error it reflects every mutation performed
before the failure. -/
def ResolveReferences (doc : APIDocument) : APIDocument × ResolveOutcome :=
  match doc.components with
  | none => (doc, .ok)
  | some comps =>
    let (eps, comps', out) := resolveEndpoints comps doc.endpoints
    ({ doc with endpoints := eps, components := some comps' }, out)

/-! ## Swagger 2.0 structures and conversion -/

/-- `SwaggerInfo` struct. -/
structure SwaggerInfo where
  title : String
  description : String
  version : String
deriving Repr, DecidableEq

/-- `Operation` struct (Swagger operation). -/
structure Operation where
  summary : String
  description : String
  operationID : String
  parameters : List Parameter
  responses : List (String × Response)
deriving Repr, DecidableEq

/-- `PathItem` struct: the seven recognized per-method operation slots. -/
structure PathItem where
  get : Option Operation
  put : Option Operation
  post : Option Operation
  delete : Option Operation
  options : Option Operation
  head : Option Operation
  patch : Option Operation
deriving Repr, DecidableEq

/-- `SwaggerSpec` struct; `Paths` is `map[string]PathItem`. -/
structure SwaggerSpec where
  swagger : String
  info : SwaggerInfo
  basePath : String
  paths : List (String × PathItem)
deriving Repr, DecidableEq

/-- `convertParameters`: copy each Swagger parameter by value into a fresh
slot (`[]Parameter` to `[]*Parameter`, every slot present). -/
def convertParameters (params : List Parameter) : List (Option Parameter) :=
  params.map (fun p => some p)

/-- `convertResponses`: copy each response by value into a fresh per-endpoint
mapping (`map[string]Response` to `map[string]*Response`). -/
def convertResponses (responses : List (String × Response)) :
    List (String × Option Response) :=
  responses.map (fun kv => (kv.1, some kv.2))

/-- `createEndpointFromOperation`: path/method from the outer keys,
summary/description/parameters/responses from the operation; the
`RequestBody` field is not set (Swagger 2.0 conflates body into
parameters), so it stays at its zero value `none`. -/
def createEndpointFromOperation (path method : String) (op : Operation) : Endpoint :=
  { path := path
    method := method
    summary := op.summary
    description := op.description
    parameters := convertParameters op.parameters
    requestBody := none
    responses := convertResponses op.responses }

/-- The per-path body of `convertSwaggerToAPIDocument`: one appended
Endpoint per present method slot, in the source's order
GET, POST, PUT, DELETE, PATCH, HEAD, OPTIONS. -/
def endpointsOfPathItem (path : String) (item : PathItem) : List Endpoint :=
  (match item.get with
   | some op => [createEndpointFromOperation path "GET" op] | none => []) ++
  (match item.post with
   | some op => [createEndpointFromOperation path "POST" op] | none => []) ++
  (match item.put with
   | some op => [createEndpointFromOperation path "PUT" op] | none => []) ++
  (match item.delete with
   | some op => [createEndpointFromOperation path "DELETE" op] | none => []) ++
  (match item.patch with
   | some op => [createEndpointFromOperation path "PATCH" op] | none => []) ++
  (match item.head with
   | some op => [createEndpointFromOperation path "HEAD" op] | none => []) ++
  (match item.options with
   | some op => [createEndpointFromOperation path "OPTIONS" op] | none => [])

/-- `convertSwaggerToAPIDocument`: title/version/description from `Info`,
no servers (Swagger 2.0 has none), endpoints accumulated over all paths.
The Go `for path, item := range sw.Paths` iterates a map; the association
list fixes one iteration order. -/
def convertSwaggerToAPIDocument (sw : SwaggerSpec) : APIDocument :=
  { title := sw.info.title
    version := sw.info.version
    description := sw.info.description
    endpoints := sw.paths.flatMap (fun kv => endpointsOfPathItem kv.1 kv.2)
    servers := []
    components := none }

/-! ## Text rendering -/

/-- Accumulator core of `strings.Fields`: split into maximal runs of
non-whitespace characters (`cur` is the current word, reversed). -/
def fieldsGo : List Char → List Char → List (List Char)
  | [], cur => if cur.isEmpty then [] else [cur.reverse]
  | c :: cs, cur =>
    if c.isWhitespace then
      if cur.isEmpty then fieldsGo cs [] else cur.reverse :: fieldsGo cs []
    else fieldsGo cs (c :: cur)

/-- `strings.Fields`: the whitespace-separated words of a string. -/
def fields (cs : List Char) : List (List Char) :=
  fieldsGo cs []

/-- `minifyText`: `strings.Join(strings.Fields(text), " ")` — collapse all
whitespace runs (including line breaks) to a single space. -/
def minifyText (text : String) : String :=
  String.intercalate " " ((fields text.toList).map List.asString)

/-- Character-level embedding of the Go slice `s[:n]` (equivalent on ASCII
text, where Go's byte indices coincide with characters). -/
def strTake (s : String) (n : Nat) : String :=
  List.asString (s.toList.take n)

/-- Character-level embedding of `strings.ToUpper` (ASCII-equivalent). -/
def strUpper (s : String) : String :=
  List.asString (s.toList.map Char.toUpper)

/-- The endpoint-description processing of `RenderText` (lines
`desc := minifyText(ep.Description); if len(desc) > 20000 { desc = desc[:2000] + "..." }`):
the threshold test reads the length of the already-collapsed text. -/
def endpointDesc (d : String) : String :=
  let desc := minifyText d
  if desc.length > 20000 then strTake desc 2000 ++ "..." else desc

/-- One parameter line of the `PARAMETERS:` block: type preference is the
inline `Type`, then the schema's type when a schema is present, then the
`"(unknown)"` placeholder; `required=%t` prints `true`/`false`; a non-empty
description is appended after `" : "`. -/
def renderParamLine (p : Parameter) : String :=
  let pType :=
    if p.type ≠ "" then p.type
    else match p.schema with
      | some s => s.type
      | none => "(unknown)"
  "  - " ++ p.name ++ " (" ++ pType ++ ", " ++ p.in_ ++ ", required=" ++
    (if p.required then "true" else "false") ++ ")" ++
    (if p.description ≠ "" then " : " ++ p.description else "") ++ "\n"

/-- The `for _, p := range ep.Parameters` loop of `RenderText`.  The Go code
has no nil check here: `p.Type` on a nil slot dereferences a nil pointer,
embedded as `none`. -/
def renderParams : List (Option Parameter) → Option String
  | [] => some ""
  | none :: _ => none
  | some p :: rest => (renderParams rest).map (fun r => renderParamLine p ++ r)

/-- The `for code, resp := range ep.Responses` loop of `RenderText`.  As
with parameters there is no nil check: `resp.Description` on a nil map
value dereferences a nil pointer, embedded as `none`. -/
def renderResponses : List (String × Option Response) → Option String
  | [] => some ""
  | (_, none) :: _ => none
  | (code, some r) :: rest =>
    (renderResponses rest).map
      (fun t => "  - " ++ code ++ ": " ++ r.description ++ "\n" ++ t)

/-- One `ENDPOINT:` block of `RenderText`. -/
def renderEndpoint (ep : Endpoint) : Option String := do
  let pBlock ←
    if ep.parameters.isEmpty then pure "  (None)\n" else renderParams ep.parameters
  let rBlock ←
    if ep.responses.isEmpty then pure "  (None)\n" else renderResponses ep.responses
  let desc := endpointDesc ep.description
  pure ("ENDPOINT: " ++ strUpper ep.method ++ " " ++ ep.path ++ "\n" ++
    "SUMMARY: " ++ ep.summary ++ "\n" ++
    (if desc = "" then "DESCRIPTION: (None)\n" else "DESCRIPTION: " ++ desc ++ "\n") ++
    "PARAMETERS:\n" ++ pBlock ++
    "REQUEST BODY: " ++
    (match ep.requestBody with
     | some rb => if rb.description ≠ "" then rb.description else "None"
     | none => "None") ++ "\n" ++
    "RESPONSES:\n" ++ rBlock ++
    "END\n")

/-- The endpoint iteration of `RenderText`, concatenating the blocks. -/
def renderEndpointList : List Endpoint → Option String
  | [] => some ""
  | ep :: rest => do
    let b ← renderEndpoint ep
    let t ← renderEndpointList rest
    pure (b ++ t)

/-- `RenderText`: header (`API: <title> (v<version>)`, `DESCRIPTION:` with a
placeholder when empty) followed by the endpoint blocks.  The Go function
returns `string` but panics on nil parameter slots / nil response values;
the embedding returns `none` exactly in the panicking runs. -/
def RenderText (doc : APIDocument) : Option String := do
  let eps ← renderEndpointList doc.endpoints
  pure ("API: " ++ doc.title ++ " (v" ++ doc.version ++ ")\n\n" ++
    "DESCRIPTION:\n" ++
    (if doc.description ≠ "" then doc.description else "(None or your description here)") ++
    "\n\n" ++ eps)

/-! ## Loading -/

/-- `bytes.TrimSpace`: strip leading and trailing whitespace. -/
def trimSpace (cs : List Char) : List Char :=
  ((cs.dropWhile Char.isWhitespace).reverse.dropWhile Char.isWhitespace).reverse

/-- The zero-valued `&APIDocument{}` returned for empty input. -/
def emptyAPIDocument : APIDocument :=
  { title := "", version := "", description := "", endpoints := [],
    servers := [], components := none }

/-- `LoadAPISpec` (file reading aside: the byte content is the input).  The
decoding collaborators (`yaml.Unmarshal` / `json.Unmarshal`, selected by the
first-byte sniff) are out of the spec's scope and are passed as arguments:
`decodeKeys` models the generic map decode (yielding the top-level keys),
`decodeSwagger` and `decodeDoc` the two strict decodes.  Empty or
all-whitespace input short-circuits to the zero-valued document. -/
def LoadAPISpec (data : String)
    (decodeKeys : String → Except String (List String))
    (decodeSwagger : String → Except String SwaggerSpec)
    (decodeDoc : String → Except String APIDocument) :
    Except String APIDocument :=
  let trimmed := trimSpace data.toList
  if trimmed.isEmpty then .ok emptyAPIDocument
  else
    match decodeKeys data with
    | .error e => .error e
    | .ok keys =>
      if "swagger" ∈ keys then
        match decodeSwagger data with
        | .error e => .error e
        | .ok sw => .ok (convertSwaggerToAPIDocument sw)
      else decodeDoc data

/-! ## Example documents used by witnesses and counterexamples -/

/-- Build a parameter that carries only a reference descriptor. -/
def refOnlyParam (r : String) : Parameter :=
  { name := ""
    in_ := ""
    required := false
    type := ""
    schema := none
    description := ""
    ref := r }

/-- Build a minimal endpoint holding the given parameter slots and
responses. -/
def mkEndpoint (path : String) (ps : List (Option Parameter))
    (rs : List (String × Option Response)) : Endpoint :=
  { path := path
    method := "get"
    summary := ""
    description := ""
    parameters := ps
    requestBody := none
    responses := rs }

/-- Build a minimal document from endpoints and an optional Components
table. -/
def mkDoc (eps : List Endpoint) (comps : Option Components) : APIDocument :=
  { title := "t"
    version := "1"
    description := ""
    endpoints := eps
    servers := []
    components := comps }

/-- A document with a dangling reference descriptor but no Components table. -/
def docNoComps : APIDocument :=
  mkDoc [mkEndpoint "/a" [some (refOnlyParam "#/components/parameters/Nowhere")] []] none

/-- A document whose single endpoint has one absent (nil) parameter slot. -/
def docNilParamSlot : APIDocument :=
  mkDoc [mkEndpoint "/a" [none] []] none

/-! ## C4: no Components table means resolution is a no-op -/

/-- C4: for every document without a Components table, `ResolveReferences`
returns success and leaves the document unchanged, whether or not reference
descriptors remain in it. -/
theorem claim_C4 (doc : APIDocument) (h : doc.components = none) :
    ResolveReferences doc = (doc, .ok) := by
  simp [ResolveReferences, h]

/-- C4 witness: the no-Components document that still carries a dangling
reference descriptor resolves to itself with success. -/
theorem claim_C4_witness : ResolveReferences docNoComps = (docNoComps, .ok) :=
  claim_C4 docNoComps (by rfl)

/-! ## C6: the renderer dereferences absent parameter slots -/

/-- C6: the data model permits absent parameter slots, but `RenderText`
reads `p.Type` without a nil check, so rendering a document with a nil slot
dereferences a nil pointer (embedded as the `none` outcome) instead of
producing text. -/
theorem claim_C6_bug :
    docNilParamSlot.endpoints.all (fun ep => ep.parameters.contains none) = true ∧
    RenderText docNilParamSlot = none := by
  constructor
  · rfl
  · rfl

/-! ## C9: reference-descriptor syntax is never validated -/

/-- C9: `extractNameFromRef` only strips the category prefix when it is
present; a descriptor without the prefix is used verbatim as the lookup
key, and a parameter slot carrying such a descriptor resolves successfully
whenever the whole descriptor string is a key of the sub-table. -/
theorem claim_C9 :
    (∀ ref ct : String,
      ("#/components/" ++ ct ++ "/").toList.isPrefixOf ref.toList = false →
      extractNameFromRef ref ct = ref) ∧
    (∀ (comps : Components) (param : Parameter) (v : Option Parameter),
      param.ref ≠ "" →
      ("#/components/parameters/" : String).toList.isPrefixOf param.ref.toList = false →
      lookup comps.parameters param.ref = some v →
      (resolveParamSlot comps (some param)).1 = v) := by
  have hname : ∀ ref ct : String,
      ("#/components/" ++ ct ++ "/").toList.isPrefixOf ref.toList = false →
      extractNameFromRef ref ct = ref := by
    intro ref ct h
    simp only [extractNameFromRef]
    rw [if_neg (fun hb => by rw [h] at hb; exact Bool.false_ne_true hb)]
  refine ⟨hname, ?_⟩
  intro comps param v href hpfx hlook
  rw [resolveParamSlot, if_pos href, hname param.ref "parameters" hpfx, hlook]

/-- C9 witness: the bare descriptor `"Page"` (no `#/components/parameters/`
prefix) is looked up whole and resolves to the component stored under the
key `"Page"`. -/
theorem claim_C9_witness :
    (resolveParamSlot
      { schemas := []
        parameters := [("Page", some paramA)]
        requestBodies := []
        responses := [] }
      (some (refOnlyParam "Page"))).1 = some paramA :=
  claim_C9.2 _ _ _ (by decide) (by decide) (by rfl)

/-! ## C10: resolution is not atomic on failure -/

/-- The parameter stored under `"A"` in `docPartial`'s components. -/
def paramA : Parameter :=
  { name := "a"
    in_ := "query"
    required := true
    type := "string"
    schema := none
    description := ""
    ref := "" }

/-- A document whose first endpoint resolves and whose second endpoint
carries a missing reference. -/
def docPartial : APIDocument :=
  mkDoc
    [mkEndpoint "/one" [some (refOnlyParam "#/components/parameters/A")] [],
     mkEndpoint "/two" [some (refOnlyParam "#/components/parameters/Missing")] []]
    (some { schemas := []
            parameters := [("A", some paramA)]
            requestBodies := []
            responses := [] })

/-- C10: `ResolveReferences` mutates the document in place, so when it
returns a reference error the replacements already performed persist: on
`docPartial` the error for the second endpoint's descriptor is returned
while the first endpoint's slot has already been replaced wholesale by the
`"A"` component — the caller observes a partially resolved document, not
the pre-call state. -/
theorem claim_C10 :
    (ResolveReferences docPartial).2 =
      .err "unresolved parameter reference: #/components/parameters/Missing" ∧
    ((ResolveReferences docPartial).1.endpoints.map Endpoint.parameters) =
      [[some paramA], (docPartial.endpoints.getLast?.map Endpoint.parameters).getD []] ∧
    (ResolveReferences docPartial).1 ≠ docPartial := by
  refine ⟨rfl, rfl, ?_⟩
  decide

/-! ## C2: which object the nested-Schema resolution acts on -/

/-- The schema component `"S"` of `docNested`. -/
def schemaS : Schema := { type := "string", ref := "" }

/-- The parameter component `"P"` of `docNested`: it carries a nested
schema reference to `"S"`. -/
def paramP : Parameter :=
  { name := "p"
    in_ := "query"
    required := false
    type := ""
    schema := some { type := "", ref := "#/components/schemas/S" }
    description := ""
    ref := "" }

/-- The response component `"R"` of `docNested`: its content carries a
nested schema reference to `"S"`. -/
def respR : Response :=
  { description := "ok"
    content := [("application/json",
      some { schema := some { type := "", ref := "#/components/schemas/S" } })]
    ref := "" }

/-- A response that carries only a reference descriptor. -/
def refOnlyResp (r : String) : Response :=
  { description := ""
    content := []
    ref := r }

/-- The Components table of `docNested`. -/
def compsNested : Components :=
  { schemas := [("S", some schemaS)]
    parameters := [("P", some paramP)]
    requestBodies := []
    responses := [("R", some respR)] }

/-- A document whose endpoint references `"P"` and `"R"`, both of which
contain nested schema references to the present schema `"S"`. -/
def docNested : APIDocument :=
  mkDoc
    [mkEndpoint "/a" [some (refOnlyParam "#/components/parameters/P")]
      [("200", some (refOnlyResp "#/components/responses/R"))]]
    (some compsNested)

/-- C2 counterexample: after the wholesale replacements succeed on
`docNested`, the parameter now occupying the slot still carries the raw
nested descriptor `#/components/schemas/S` in its schema field, and the
response now stored under `"200"` still carries it in its media-type
content — even though `"S"` is present in `Components.schemas`.  The
nested-Schema pass therefore did **not** operate on the just-replaced
objects, contradicting the claim. -/
theorem claim_C2_cex :
    (ResolveReferences docNested).2 = .ok ∧
    (ResolveReferences docNested).1.endpoints.map Endpoint.parameters =
      [[some paramP]] ∧
    paramP.schema = some { type := "", ref := "#/components/schemas/S" } ∧
    (ResolveReferences docNested).1.endpoints.map Endpoint.responses =
      [[("200", some respR)]] ∧
    respR.content = [("application/json",
      some { schema := some { type := "", ref := "#/components/schemas/S" } })] ∧
    lookup compsNested.schemas
      (extractNameFromRef "#/components/schemas/S" "schemas") = some (some schemaS) := by
  refine ⟨rfl, rfl, rfl, rfl, rfl, ?_⟩
  decide

/-- C2 amended: the nested-Schema resolution that follows a wholesale
replacement acts on the *pre-replacement* object.  For a Parameter slot
(and a Response entry) whose reference hits, the slot is assigned the table
value with its schema/content untouched, and the nested pass contributes
only the error, if any, of resolving the *old* object's schema/content.
Only the RequestBody step acts on the just-replaced component. -/
theorem claim_C2_amended :
    (∀ (comps : Components) (param : Parameter) (v : Option Parameter),
      param.ref ≠ "" →
      lookup comps.parameters (extractNameFromRef param.ref "parameters") = some v →
      resolveParamSlot comps (some param) = (v, (resolveSchema comps param.schema).2)) ∧
    (∀ (comps : Components) (code : String) (resp : Response) (v : Option Response),
      resp.ref ≠ "" →
      lookup comps.responses (extractNameFromRef resp.ref "responses") = some v →
      resolveResponseEntry comps (code, some resp) =
        ((code, v), (resolveContent comps resp.content).2)) ∧
    (∀ (comps : Components) (rb target : RequestBody),
      rb.ref ≠ "" →
      lookup comps.requestBodies (extractNameFromRef rb.ref "requestBodies") =
        some (some target) →
      (resolveRequestBody comps (some rb)).1 =
        some { target with content := (resolveContent comps target.content).1 }) := by
  refine ⟨?_, ?_, ?_⟩
  · intro comps param v href hlook
    rw [resolveParamSlot, if_pos href, hlook]
  · intro comps code resp v href hlook
    rw [resolveResponseEntry, if_pos href, hlook]
  · intro comps rb target href hlook
    simp only [resolveRequestBody, if_pos href, hlook]

/-- C2 amended, witness: a parameter referencing a component whose schema
holds an unresolved-looking but present nested descriptor is replaced by
the component verbatim (schema untouched), with no error, because the old
parameter had no schema. -/
theorem claim_C2_amended_witness :
    resolveParamSlot compsNested
      (some (refOnlyParam "#/components/parameters/P")) =
    (some paramP, none) := by
  have h := claim_C2_amended.1 compsNested
    (refOnlyParam "#/components/parameters/P") (some paramP) (by decide) (by decide)
  simpa using h

/-! ## Reference-free predicates (descriptor no longer active) -/

/-- A schema slot carries no active reference descriptor. -/
def schemaNR : Option Schema → Bool
  | none => true
  | some sch => sch.ref == ""

/-- A media-type entry carries no active reference descriptor. -/
def mediaEntryNR (kv : String × Option MediaType) : Bool :=
  match kv.2 with
  | none => true
  | some mt => schemaNR mt.schema

/-- A content mapping carries no active reference descriptor. -/
def contentNR (c : List (String × Option MediaType)) : Bool :=
  c.all mediaEntryNR

/-- A parameter slot carries no active reference descriptor. -/
def paramNR : Option Parameter → Bool
  | none => true
  | some p => p.ref == "" && schemaNR p.schema

/-- A requestBody slot carries no active reference descriptor. -/
def rbNR : Option RequestBody → Bool
  | none => true
  | some rb => rb.ref == "" && contentNR rb.content

/-- A response slot carries no active reference descriptor. -/
def respNR : Option Response → Bool
  | none => true
  | some r => r.ref == "" && contentNR r.content

/-- An endpoint carries no active reference descriptor. -/
def endpointNR (ep : Endpoint) : Bool :=
  ep.parameters.all paramNR && rbNR ep.requestBody &&
    ep.responses.all (fun kv => respNR kv.2)

/-- Every value of the Components table is itself free of reference
descriptors (the single-level-resolution well-formedness condition). -/
def compsNR (c : Components) : Bool :=
  c.schemas.all (fun kv => schemaNR kv.2) &&
    c.parameters.all (fun kv => paramNR kv.2) &&
    c.requestBodies.all (fun kv => rbNR kv.2) &&
    c.responses.all (fun kv => respNR kv.2)

/-! ### Resolution is the identity on reference-free data -/

theorem resolveSchema_of_nr (comps : Components) (s : Option Schema)
    (h : schemaNR s = true) : resolveSchema comps s = (s, none) := by
  cases s with
  | none => rfl
  | some sch =>
    have h' : sch.ref = "" := by simpa [schemaNR] using h
    simp [resolveSchema, h']

theorem resolveParamSlot_of_nr (comps : Components) (p : Option Parameter)
    (h : paramNR p = true) : resolveParamSlot comps p = (p, none) := by
  cases p with
  | none => rfl
  | some param =>
    simp only [paramNR, Bool.and_eq_true, beq_iff_eq] at h
    obtain ⟨h1, h2⟩ := h
    cases param
    simp_all [resolveParamSlot, resolveSchema_of_nr]

theorem resolveList_of_id {α : Type} (f : α → α × Option String) (xs : List α)
    (h : ∀ x ∈ xs, f x = (x, none)) : resolveList f xs = (xs, none) := by
  induction xs with
  | nil => rfl
  | cons x xs ih =>
    simp [resolveList, h x (List.mem_cons_self x xs),
      ih (fun y hy => h y (List.mem_cons_of_mem x hy))]

theorem resolveMediaEntry_of_nr (comps : Components) (kv : String × Option MediaType)
    (h : mediaEntryNR kv = true) : resolveMediaEntry comps kv = (kv, none) := by
  obtain ⟨k, m⟩ := kv
  cases m with
  | none => rfl
  | some mt =>
    obtain ⟨ms⟩ := mt
    cases ms with
    | none => rfl
    | some sch =>
      simp only [mediaEntryNR] at h
      simp_all [resolveMediaEntry, resolveSchema_of_nr]

theorem resolveContent_of_nr (comps : Components) (c : List (String × Option MediaType))
    (h : contentNR c = true) : resolveContent comps c = (c, none) := by
  refine resolveList_of_id _ _ (fun kv hkv => resolveMediaEntry_of_nr comps kv ?_)
  exact (List.all_eq_true.mp h) kv hkv

theorem resolveRequestBody_of_nr (comps : Components) (slot : Option RequestBody)
    (h : rbNR slot = true) : resolveRequestBody comps slot = (slot, comps, .ok) := by
  cases slot with
  | none => rfl
  | some rb =>
    simp only [rbNR, Bool.and_eq_true, beq_iff_eq] at h
    obtain ⟨h1, h2⟩ := h
    cases rb
    simp_all [resolveRequestBody, resolveContent_of_nr, ofErr]

theorem resolveResponseEntry_of_nr (comps : Components) (kv : String × Option Response)
    (h : respNR kv.2 = true) : resolveResponseEntry comps kv = (kv, none) := by
  obtain ⟨code, m⟩ := kv
  cases m with
  | none => rfl
  | some resp =>
    simp only [respNR, Bool.and_eq_true, beq_iff_eq] at h
    obtain ⟨h1, h2⟩ := h
    cases resp
    simp_all [resolveResponseEntry, resolveContent_of_nr]

theorem resolveEndpoint_of_nr (comps : Components) (ep : Endpoint)
    (h : endpointNR ep = true) : resolveEndpoint comps ep = (ep, comps, .ok) := by
  simp only [endpointNR, Bool.and_eq_true] at h
  obtain ⟨⟨h1, h2⟩, h3⟩ := h
  have hp : resolveList (resolveParamSlot comps) ep.parameters = (ep.parameters, none) :=
    resolveList_of_id _ _ (fun x hx =>
      resolveParamSlot_of_nr comps x ((List.all_eq_true.mp h1) x hx))
  have hr : resolveList (resolveResponseEntry comps) ep.responses = (ep.responses, none) :=
    resolveList_of_id _ _ (fun x hx =>
      resolveResponseEntry_of_nr comps x ((List.all_eq_true.mp h3) x hx))
  cases ep
  simp_all [resolveEndpoint, resolveRequestBody_of_nr, ofErr]

theorem resolveEndpoints_of_nr (comps : Components) (eps : List Endpoint)
    (h : eps.all endpointNR = true) : resolveEndpoints comps eps = (eps, comps, .ok) := by
  induction eps with
  | nil => rfl
  | cons ep eps ih =>
    simp only [List.all_cons, Bool.and_eq_true] at h
    simp [resolveEndpoints, resolveEndpoint_of_nr comps ep h.1, ih h.2]

theorem ResolveReferences_of_nr (doc : APIDocument)
    (h : doc.endpoints.all endpointNR = true) : ResolveReferences doc = (doc, .ok) := by
  cases hc : doc.components with
  | none => simp [ResolveReferences, hc]
  | some comps =>
    cases doc
    simp_all [ResolveReferences, resolveEndpoints_of_nr]

/-! ### Resolution produces reference-free data when the table is -/

theorem lookup_all {α : Type} (p : α → Bool) (m : List (String × α)) (k : String) (v : α)
    (hall : m.all (fun kv => p kv.2) = true) (hl : lookup m k = some v) : p v = true := by
  unfold lookup at hl
  cases hf : m.find? (fun kv => kv.1 = k) with
  | none => rw [hf] at hl; simp at hl
  | some kv =>
    rw [hf] at hl
    simp at hl
    have hmem := List.mem_of_find?_eq_some hf
    have hkv := (List.all_eq_true.mp hall) kv hmem
    rw [← hl]
    exact hkv

theorem resolveSchema_out (comps : Components)
    (hs : comps.schemas.all (fun kv => schemaNR kv.2) = true) (s : Option Schema)
    (he : (resolveSchema comps s).2 = none) :
    schemaNR (resolveSchema comps s).1 = true := by
  cases s with
  | none => rfl
  | some sch =>
    by_cases href : sch.ref = ""
    · simp [resolveSchema, href, schemaNR]
    · cases hl : lookup comps.schemas (extractNameFromRef sch.ref "schemas") with
      | none => simp [resolveSchema, href, hl] at he
      | some v =>
        simp only [resolveSchema, if_pos (by simpa using href), hl]
        exact lookup_all schemaNR _ _ v hs hl

theorem resolveParamSlot_out (comps : Components)
    (hs : comps.schemas.all (fun kv => schemaNR kv.2) = true)
    (hp : comps.parameters.all (fun kv => paramNR kv.2) = true) (p : Option Parameter)
    (he : (resolveParamSlot comps p).2 = none) :
    paramNR (resolveParamSlot comps p).1 = true := by
  cases p with
  | none => rfl
  | some param =>
    by_cases href : param.ref = ""
    · rcases hrs : resolveSchema comps param.schema with ⟨s', e⟩
      have hout : (resolveParamSlot comps (some param)).1 =
          some { param with schema := s' } := by
        simp [resolveParamSlot, href, hrs]
      have he' : e = none := by
        simp [resolveParamSlot, href, hrs] at he
        exact he
      rw [hout]
      have := resolveSchema_out comps hs param.schema (by rw [hrs, he'])
      rw [hrs] at this
      simp [paramNR, href, this]
    · cases hl : lookup comps.parameters (extractNameFromRef param.ref "parameters") with
      | none => simp [resolveParamSlot, href, hl] at he
      | some v =>
        have hout : (resolveParamSlot comps (some param)).1 = v := by
          simp [resolveParamSlot, href, hl]
        rw [hout]
        exact lookup_all paramNR _ _ v hp hl

theorem resolveList_out {α : Type} (f : α → α × Option String) (p : α → Bool)
    (hf : ∀ x, (f x).2 = none → p (f x).1 = true) (xs xs' : List α)
    (h : resolveList f xs = (xs', none)) : xs'.all p = true := by
  induction xs generalizing xs' with
  | nil =>
    simp only [resolveList] at h
    cases h
    rfl
  | cons x xs ih =>
    rcases hfx : f x with ⟨x', e⟩
    cases e with
    | some m => simp [resolveList, hfx] at h
    | none =>
      rcases hrest : resolveList f xs with ⟨rest', e'⟩
      simp only [resolveList, hfx, hrest] at h
      rw [Prod.mk.injEq] at h
      obtain ⟨h1, h2⟩ := h
      subst h1
      have hx : p x' = true := by
        have hp' := hf x (by rw [hfx])
        rw [hfx] at hp'
        exact hp'
      have hrest' : resolveList f xs = (rest', none) := by rw [hrest, h2]
      simp [List.all_cons, hx, ih rest' hrest']

theorem resolveMediaEntry_out (comps : Components)
    (hs : comps.schemas.all (fun kv => schemaNR kv.2) = true)
    (kv : String × Option MediaType)
    (he : (resolveMediaEntry comps kv).2 = none) :
    mediaEntryNR (resolveMediaEntry comps kv).1 = true := by
  obtain ⟨k, m⟩ := kv
  cases m with
  | none => rfl
  | some mt =>
    cases hms : mt.schema with
    | none => simp [resolveMediaEntry, hms, mediaEntryNR, schemaNR]
    | some sch =>
      rcases hrs : resolveSchema comps (some sch) with ⟨s', e⟩
      have he' : e = none := by
        simp only [resolveMediaEntry, hms, hrs] at he
        exact he
      have hnr := resolveSchema_out comps hs (some sch) (by rw [hrs, he'])
      rw [hrs] at hnr
      simp [resolveMediaEntry, hms, hrs, mediaEntryNR]
      exact hnr

theorem resolveContent_out (comps : Components)
    (hs : comps.schemas.all (fun kv => schemaNR kv.2) = true)
    (c c' : List (String × Option MediaType))
    (h : resolveContent comps c = (c', none)) : contentNR c' = true :=
  resolveList_out _ mediaEntryNR (fun kv => resolveMediaEntry_out comps hs kv) c c' h

theorem ofErr_eq_ok {e : Option String} (h : ofErr e = .ok) : e = none := by
  cases e with
  | none => rfl
  | some m => exact absurd h (by simp [ofErr])

theorem updateRB_nr (comps : Components) (name : String) (rb : RequestBody)
    (hc : compsNR comps = true) (hrb : rbNR (some rb) = true) :
    compsNR (updateRB comps name rb) = true := by
  simp only [compsNR, Bool.and_eq_true] at hc ⊢
  obtain ⟨⟨⟨h1, h2⟩, h3⟩, h4⟩ := hc
  refine ⟨⟨⟨h1, h2⟩, ?_⟩, h4⟩
  simp only [updateRB]
  rw [List.all_eq_true]
  intro kv' hmem
  rw [List.mem_map] at hmem
  obtain ⟨kv, hkv, heq⟩ := hmem
  by_cases hk : kv.1 = name
  · rw [← heq, if_pos hk]
    exact hrb
  · rw [← heq, if_neg hk]
    exact (List.all_eq_true.mp h3) kv hkv

theorem resolveRequestBody_out (comps : Components) (hc : compsNR comps = true)
    (slot slot' : Option RequestBody) (comps2 : Components)
    (h : resolveRequestBody comps slot = (slot', comps2, .ok)) :
    rbNR slot' = true ∧ compsNR comps2 = true := by
  have hs : comps.schemas.all (fun kv => schemaNR kv.2) = true := by
    simp only [compsNR, Bool.and_eq_true] at hc
    exact hc.1.1.1
  have hrbs : comps.requestBodies.all (fun kv => rbNR kv.2) = true := by
    simp only [compsNR, Bool.and_eq_true] at hc
    exact hc.1.2
  cases slot with
  | none =>
    simp only [resolveRequestBody, Prod.mk.injEq] at h
    obtain ⟨h1, h2, _⟩ := h
    subst h1 h2
    exact ⟨rfl, hc⟩
  | some rb =>
    by_cases href : rb.ref = ""
    · rcases hrc : resolveContent comps rb.content with ⟨c', e⟩
      have heq : resolveRequestBody comps (some rb) =
          (some { rb with content := c' }, comps, ofErr e) := by
        simp [resolveRequestBody, href, hrc, ofErr]
      rw [heq] at h
      simp only [Prod.mk.injEq] at h
      obtain ⟨h1, h2, h3⟩ := h
      subst h1
      subst h2
      refine ⟨?_, hc⟩
      simp only [rbNR, Bool.and_eq_true, beq_iff_eq]
      have he : e = none := ofErr_eq_ok h3
      subst he
      exact ⟨href, resolveContent_out comps hs rb.content c' hrc⟩
    · cases hl : lookup comps.requestBodies (extractNameFromRef rb.ref "requestBodies") with
      | none => simp [resolveRequestBody, if_pos href, hl] at h
      | some v =>
        cases v with
        | none => simp [resolveRequestBody, if_pos href, hl] at h
        | some target =>
          rcases hrc : resolveContent comps target.content with ⟨c', e⟩
          have heq : resolveRequestBody comps (some rb) =
              (some { target with content := c' },
                updateRB comps (extractNameFromRef rb.ref "requestBodies")
                  { target with content := c' },
                ofErr e) := by
            simp [resolveRequestBody, if_pos href, hl, hrc, ofErr]
          rw [heq] at h
          simp only [Prod.mk.injEq] at h
          obtain ⟨h1, h2, h3⟩ := h
          subst h1
          subst h2
          have he : e = none := ofErr_eq_ok h3
          subst he
          have htarget : rbNR (some target) = true :=
            lookup_all rbNR _ _ (some target) hrbs hl
          simp only [rbNR, Bool.and_eq_true, beq_iff_eq] at htarget
          have hrb' : rbNR (some { target with content := c' }) = true := by
            simp only [rbNR, Bool.and_eq_true, beq_iff_eq]
            exact ⟨htarget.1, resolveContent_out comps hs target.content c' hrc⟩
          exact ⟨hrb', updateRB_nr comps _ _ hc hrb'⟩

theorem resolveResponseEntry_out (comps : Components) (hc : compsNR comps = true)
    (kv : String × Option Response)
    (he : (resolveResponseEntry comps kv).2 = none) :
    respNR (resolveResponseEntry comps kv).1.2 = true := by
  have hs : comps.schemas.all (fun kv => schemaNR kv.2) = true := by
    simp only [compsNR, Bool.and_eq_true] at hc
    exact hc.1.1.1
  have hresp : comps.responses.all (fun kv => respNR kv.2) = true := by
    simp only [compsNR, Bool.and_eq_true] at hc
    exact hc.2
  obtain ⟨code, m⟩ := kv
  cases m with
  | none => rfl
  | some resp =>
    by_cases href : resp.ref = ""
    · rcases hrc : resolveContent comps resp.content with ⟨c', e⟩
      have heq : resolveResponseEntry comps (code, some resp) =
          ((code, some { resp with content := c' }), e) := by
        simp [resolveResponseEntry, href, hrc]
      rw [heq] at he ⊢
      subst he
      simp only [respNR, Bool.and_eq_true, beq_iff_eq]
      exact ⟨href, resolveContent_out comps hs resp.content c' hrc⟩
    · cases hl : lookup comps.responses (extractNameFromRef resp.ref "responses") with
      | none => simp [resolveResponseEntry, if_pos href, hl] at he
      | some v =>
        rcases hrc : resolveContent comps resp.content with ⟨c', e⟩
        have heq : resolveResponseEntry comps (code, some resp) = ((code, v), e) := by
          simp [resolveResponseEntry, if_pos href, hl, hrc]
        rw [heq]
        exact lookup_all respNR _ _ v hresp hl

theorem resolveEndpoint_out (comps : Components) (hc : compsNR comps = true)
    (ep ep' : Endpoint) (comps2 : Components)
    (h : resolveEndpoint comps ep = (ep', comps2, .ok)) :
    endpointNR ep' = true ∧ compsNR comps2 = true := by
  have hs : comps.schemas.all (fun kv => schemaNR kv.2) = true := by
    simp only [compsNR, Bool.and_eq_true] at hc
    exact hc.1.1.1
  have hp : comps.parameters.all (fun kv => paramNR kv.2) = true := by
    simp only [compsNR, Bool.and_eq_true] at hc
    exact hc.1.1.2
  rcases hps : resolveList (resolveParamSlot comps) ep.parameters with ⟨ps, e1⟩
  cases e1 with
  | some m => simp [resolveEndpoint, hps] at h
  | none =>
    rcases hrb : resolveRequestBody comps ep.requestBody with ⟨rb', comps', out2⟩
    cases out2 with
    | ok =>
      rcases hrs : resolveList (resolveResponseEntry comps') ep.responses with ⟨rs, e3⟩
      cases e3 with
      | some m => simp [resolveEndpoint, hps, hrb, hrs, ofErr] at h
      | none =>
        simp only [resolveEndpoint, hps, hrb, hrs, ofErr, Prod.mk.injEq] at h
        obtain ⟨h1, h2, _⟩ := h
        obtain ⟨hrbnr, hcomps'⟩ :=
          resolveRequestBody_out comps hc ep.requestBody rb' comps' hrb
        have hpall : ps.all paramNR = true :=
          resolveList_out _ paramNR (fun x => resolveParamSlot_out comps hs hp x)
            ep.parameters ps hps
        have hrall : rs.all (fun kv => respNR kv.2) = true :=
          resolveList_out _ (fun kv => respNR kv.2)
            (fun x => resolveResponseEntry_out comps' hcomps' x) ep.responses rs hrs
        refine ⟨?_, by rw [← h2]; exact hcomps'⟩
        rw [← h1]
        simp only [endpointNR, Bool.and_eq_true]
        exact ⟨⟨hpall, hrbnr⟩, hrall⟩
    | err m => simp [resolveEndpoint, hps, hrb] at h
    | nilPanic => simp [resolveEndpoint, hps, hrb] at h

theorem resolveEndpoints_out (eps : List Endpoint) :
    ∀ comps : Components, compsNR comps = true →
    ∀ (eps' : List Endpoint) (comps2 : Components),
    resolveEndpoints comps eps = (eps', comps2, .ok) →
    eps'.all endpointNR = true ∧ compsNR comps2 = true := by
  induction eps with
  | nil =>
    intro comps hc eps' comps2 h
    simp only [resolveEndpoints, Prod.mk.injEq] at h
    obtain ⟨h1, h2, _⟩ := h
    subst h1 h2
    exact ⟨rfl, hc⟩
  | cons ep eps ih =>
    intro comps hc eps' comps2 h
    rcases hep : resolveEndpoint comps ep with ⟨ep1, comps1, out⟩
    cases out with
    | ok =>
      rcases hrest : resolveEndpoints comps1 eps with ⟨rest1, comps3, outr⟩
      simp only [resolveEndpoints, hep, hrest, Prod.mk.injEq] at h
      obtain ⟨h1, h2, h3⟩ := h
      subst h1
      subst h2
      obtain ⟨hepnr, hcomps1⟩ := resolveEndpoint_out comps hc ep ep1 comps1 hep
      obtain ⟨hrestnr, hcomps3⟩ := ih comps1 hcomps1 rest1 comps3 (by rw [hrest, h3])
      exact ⟨by simp [List.all_cons, hepnr, hrestnr], hcomps3⟩
    | err m => simp [resolveEndpoints, hep] at h
    | nilPanic => simp [resolveEndpoints, hep] at h

/-! ## C3: wholesale replacement and idempotence -/

/-- The component parameter `"P2"` of `docChain`: it itself still carries a
reference descriptor, pointing at the (present) component `"Q2"`. -/
def paramP2 : Parameter :=
  { name := "p2"
    in_ := "query"
    required := false
    type := ""
    schema := none
    description := ""
    ref := "#/components/parameters/Q2" }

/-- The component parameter `"Q2"` of `docChain`. -/
def paramQ2 : Parameter :=
  { name := "q2"
    in_ := "header"
    required := true
    type := "string"
    schema := none
    description := ""
    ref := "" }

/-- A document in which every reference descriptor names a present
component: the endpoint slot references `"P2"`, and the component `"P2"`
itself references `"Q2"`. -/
def docChain : APIDocument :=
  mkDoc [mkEndpoint "/a" [some (refOnlyParam "#/components/parameters/P2")] []]
    (some { schemas := []
            parameters := [("P2", some paramP2), ("Q2", some paramQ2)]
            requestBodies := []
            responses := [] })

/-- C3 counterexample: on `docChain` every descriptor names a present
component and the first `ResolveReferences` call succeeds, leaving the slot
equal to the `"P2"` component wholesale — but that component's own
descriptor is still active, so a *second* call performs a further
replacement (the slot becomes `"Q2"`): resolution is not idempotent as
claimed. -/
theorem claim_C3_cex :
    (ResolveReferences docChain).2 = .ok ∧
    (ResolveReferences docChain).1.endpoints.map Endpoint.parameters =
      [[some paramP2]] ∧
    (ResolveReferences ((ResolveReferences docChain).1)).2 = .ok ∧
    (ResolveReferences ((ResolveReferences docChain).1)).1.endpoints.map
      Endpoint.parameters = [[some paramQ2]] ∧
    (ResolveReferences ((ResolveReferences docChain).1)).1 ≠
      (ResolveReferences docChain).1 := by
  refine ⟨rfl, rfl, rfl, rfl, ?_⟩
  decide

/-- C3 amended: (i) a parameter slot (or a response entry) whose reference
descriptor hits is replaced wholesale by the component's value — the
resolved object, not a field-by-field merge; (ii) *provided the values
stored in the Components table carry no reference descriptors themselves*
(single-level resolution), a successful `ResolveReferences` leaves no
observably active descriptor: a second call is a no-op returning the same
document with success.  Without that proviso idempotence fails, as
`claim_C3_cex` shows. -/
theorem claim_C3 :
    (∀ (comps : Components) (param : Parameter) (v : Option Parameter),
      param.ref ≠ "" →
      lookup comps.parameters (extractNameFromRef param.ref "parameters") = some v →
      (resolveParamSlot comps (some param)).1 = v) ∧
    (∀ (comps : Components) (code : String) (resp : Response) (v : Option Response),
      resp.ref ≠ "" →
      lookup comps.responses (extractNameFromRef resp.ref "responses") = some v →
      (resolveResponseEntry comps (code, some resp)).1 = (code, v)) ∧
    (∀ (doc doc' : APIDocument),
      (∀ c, doc.components = some c → compsNR c = true) →
      ResolveReferences doc = (doc', .ok) →
      ResolveReferences doc' = (doc', .ok)) := by
  refine ⟨?_, ?_, ?_⟩
  · intro comps param v href hlook
    rw [resolveParamSlot, if_pos href, hlook]
  · intro comps code resp v href hlook
    rw [resolveResponseEntry, if_pos href, hlook]
  · intro doc doc' hwf h
    cases hc : doc.components with
    | none =>
      simp only [ResolveReferences, hc, Prod.mk.injEq] at h
      obtain ⟨h1, _⟩ := h
      subst h1
      simp [ResolveReferences, hc]
    | some comps =>
      rcases hre : resolveEndpoints comps doc.endpoints with ⟨eps, comps', out⟩
      simp only [ResolveReferences, hc, hre, Prod.mk.injEq] at h
      obtain ⟨h1, h2⟩ := h
      have hout : out = .ok := h2
      obtain ⟨hepsnr, _⟩ :=
        resolveEndpoints_out doc.endpoints comps (hwf comps hc) eps comps'
          (by rw [hre, hout])
      have hdoc' : doc'.endpoints = eps := by rw [← h1]
      refine ResolveReferences_of_nr doc' ?_
      rw [hdoc']
      exact hepsnr

/-- C3 witness: on a concrete document whose components carry no
descriptors of their own, a second resolution of the already-resolved
document is a no-op with success. -/
theorem claim_C3_witness :
    ResolveReferences
      (mkDoc [mkEndpoint "/one" [some paramA] []]
        (some { schemas := []
                parameters := [("A", some paramA)]
                requestBodies := []
                responses := [] })) =
    ((mkDoc [mkEndpoint "/one" [some paramA] []]
        (some { schemas := []
                parameters := [("A", some paramA)]
                requestBodies := []
                responses := [] })), .ok) := by
  have h := claim_C3.2.2
    (mkDoc [mkEndpoint "/one" [some (refOnlyParam "#/components/parameters/A")] []]
      (some { schemas := []
              parameters := [("A", some paramA)]
              requestBodies := []
              responses := [] }))
    (mkDoc [mkEndpoint "/one" [some paramA] []]
      (some { schemas := []
              parameters := [("A", some paramA)]
              requestBodies := []
              responses := [] }))
    (by intro c hcc; cases hcc; decide)
    (by decide)
  exact h

/-! ## C1: a failure names a genuinely missing descriptor of the document -/

/-- The reference descriptors of a schema slot. -/
def schemaRefs : Option Schema → List String
  | none => []
  | some sch => [sch.ref]

/-- The reference descriptors of a media-type entry. -/
def mediaEntryRefs (kv : String × Option MediaType) : List String :=
  match kv.2 with
  | none => []
  | some mt => schemaRefs mt.schema

/-- The reference descriptors of a content mapping. -/
def contentRefs (c : List (String × Option MediaType)) : List String :=
  c.flatMap mediaEntryRefs

/-- The reference descriptors of a parameter slot. -/
def paramRefs : Option Parameter → List String
  | none => []
  | some p => p.ref :: schemaRefs p.schema

/-- The reference descriptors of a requestBody slot. -/
def rbRefs : Option RequestBody → List String
  | none => []
  | some rb => rb.ref :: contentRefs rb.content

/-- The reference descriptors of a response slot. -/
def respRefs : Option Response → List String
  | none => []
  | some r => r.ref :: contentRefs r.content

/-- All reference descriptors occurring in an endpoint. -/
def endpointRefs (ep : Endpoint) : List String :=
  ep.parameters.flatMap paramRefs ++ rbRefs ep.requestBody ++
    ep.responses.flatMap (fun kv => respRefs kv.2)

/-- All reference descriptors occurring in the Components table. -/
def compsRefs (c : Components) : List String :=
  c.schemas.flatMap (fun kv => schemaRefs kv.2) ++
    c.parameters.flatMap (fun kv => paramRefs kv.2) ++
    c.requestBodies.flatMap (fun kv => rbRefs kv.2) ++
    c.responses.flatMap (fun kv => respRefs kv.2)

/-- All reference descriptors occurring anywhere in a document. -/
def docRefs (doc : APIDocument) : List String :=
  doc.endpoints.flatMap endpointRefs ++
    (match doc.components with
     | none => []
     | some c => compsRefs c)

/-- The error message `m` is the ReferenceError for descriptor `r`, whose
name segment is absent from the matching Components sub-table. -/
def refMiss (comps : Components) (m r : String) : Prop :=
  (m = "unresolved parameter reference: " ++ r ∧
    lookup comps.parameters (extractNameFromRef r "parameters") = none) ∨
  (m = "unresolved schema reference: " ++ r ∧
    lookup comps.schemas (extractNameFromRef r "schemas") = none) ∨
  (m = "unresolved requestBody reference: " ++ r ∧
    lookup comps.requestBodies (extractNameFromRef r "requestBodies") = none) ∨
  (m = "unresolved response reference: " ++ r ∧
    lookup comps.responses (extractNameFromRef r "responses") = none)

theorem resolveSchema_err (comps : Components) (s : Option Schema) (m : String)
    (h : (resolveSchema comps s).2 = some m) :
    ∃ r ∈ schemaRefs s, refMiss comps m r := by
  cases s with
  | none => simp [resolveSchema] at h
  | some sch =>
    by_cases href : sch.ref = ""
    · simp [resolveSchema, href] at h
    · cases hl : lookup comps.schemas (extractNameFromRef sch.ref "schemas") with
      | some v => simp [resolveSchema, if_pos href, hl] at h
      | none =>
        have hm : m = "unresolved schema reference: " ++ sch.ref := by
          simp only [resolveSchema, if_pos href, hl, Option.some_inj] at h
          exact h.symm
        exact ⟨sch.ref, by simp [schemaRefs], Or.inr (Or.inl ⟨hm, hl⟩)⟩

theorem resolveParamSlot_err (comps : Components) (p : Option Parameter) (m : String)
    (h : (resolveParamSlot comps p).2 = some m) :
    ∃ r ∈ paramRefs p, refMiss comps m r := by
  cases p with
  | none => simp [resolveParamSlot] at h
  | some param =>
    by_cases href : param.ref = ""
    · rcases hrs : resolveSchema comps param.schema with ⟨s', e⟩
      have heq : resolveParamSlot comps (some param) =
          (some { param with schema := s' }, e) := by
        simp [resolveParamSlot, href, hrs]
      have he : e = some m := by
        rw [heq] at h
        exact h
      obtain ⟨r, hr, hmiss⟩ := resolveSchema_err comps param.schema m (by rw [hrs, he])
      exact ⟨r, by simp [paramRefs, hr], hmiss⟩
    · cases hl : lookup comps.parameters (extractNameFromRef param.ref "parameters") with
      | some v =>
        rcases hrs : resolveSchema comps param.schema with ⟨s', e⟩
        have he : e = some m := by
          simp only [resolveParamSlot, if_pos href, hl, hrs] at h
          exact h
        obtain ⟨r, hr, hmiss⟩ := resolveSchema_err comps param.schema m (by rw [hrs, he])
        exact ⟨r, by simp [paramRefs, hr], hmiss⟩
      | none =>
        have hm : m = "unresolved parameter reference: " ++ param.ref := by
          simp only [resolveParamSlot, if_pos href, hl, Option.some_inj] at h
          exact h.symm
        exact ⟨param.ref, by simp [paramRefs], Or.inl ⟨hm, hl⟩⟩

theorem resolveList_err {α : Type} (f : α → α × Option String) (xs xs' : List α)
    (m : String) (h : resolveList f xs = (xs', some m)) :
    ∃ x ∈ xs, (f x).2 = some m := by
  induction xs generalizing xs' with
  | nil => simp [resolveList, Prod.mk.injEq] at h
  | cons x xs ih =>
    rcases hfx : f x with ⟨x', e⟩
    cases e with
    | some e0 =>
      simp only [resolveList, hfx, Prod.mk.injEq] at h
      exact ⟨x, by simp, by rw [hfx, h.2]⟩
    | none =>
      rcases hrest : resolveList f xs with ⟨rest', e'⟩
      simp only [resolveList, hfx, hrest, Prod.mk.injEq] at h
      obtain ⟨r0, hr0, hfr0⟩ := ih rest' (by rw [hrest, h.2])
      exact ⟨r0, by simp [hr0], hfr0⟩

theorem resolveMediaEntry_err (comps : Components) (kv : String × Option MediaType)
    (m : String) (h : (resolveMediaEntry comps kv).2 = some m) :
    ∃ r ∈ mediaEntryRefs kv, refMiss comps m r := by
  obtain ⟨k, mv⟩ := kv
  cases mv with
  | none => simp [resolveMediaEntry] at h
  | some mt =>
    cases hms : mt.schema with
    | none => simp [resolveMediaEntry, hms] at h
    | some sch =>
      rcases hrs : resolveSchema comps (some sch) with ⟨s', e⟩
      have he : e = some m := by
        simp only [resolveMediaEntry, hms, hrs] at h
        exact h
      obtain ⟨r, hr, hmiss⟩ := resolveSchema_err comps (some sch) m (by rw [hrs, he])
      exact ⟨r, by simp [mediaEntryRefs, hms, hr], hmiss⟩

theorem resolveContent_err (comps : Components) (c c' : List (String × Option MediaType))
    (m : String) (h : resolveContent comps c = (c', some m)) :
    ∃ r ∈ contentRefs c, refMiss comps m r := by
  obtain ⟨kv, hkv, hk⟩ := resolveList_err (resolveMediaEntry comps) c c' m h
  obtain ⟨r, hr, hmiss⟩ := resolveMediaEntry_err comps kv m hk
  exact ⟨r, List.mem_flatMap.mpr ⟨kv, hkv, hr⟩, hmiss⟩

theorem lookup_cons {α : Type} (kv : String × α) (l : List (String × α)) (k : String) :
    lookup (kv :: l) k = if kv.1 = k then some kv.2 else lookup l k := by
  unfold lookup
  rw [List.find?_cons]
  by_cases hk : kv.1 = k <;> simp [hk]

theorem lookup_refs_sub {α : Type} (f : α → List String) (m : List (String × α))
    (k : String) (v : α) (hl : lookup m k = some v) :
    f v ⊆ m.flatMap (fun kv => f kv.2) := by
  intro r hr
  unfold lookup at hl
  cases hf : m.find? (fun kv => kv.1 = k) with
  | none => rw [hf] at hl; simp at hl
  | some kv =>
    rw [hf] at hl
    simp at hl
    exact List.mem_flatMap.mpr ⟨kv, List.mem_of_find?_eq_some hf, hl ▸ hr⟩

/-- Missing keys of `c2`'s sub-tables are also missing in `c1`'s (key sets
only shrink backwards along the walk; in fact they are preserved). -/
def missPreserved (c1 c2 : Components) : Prop :=
  (∀ k, lookup c2.schemas k = none → lookup c1.schemas k = none) ∧
  (∀ k, lookup c2.parameters k = none → lookup c1.parameters k = none) ∧
  (∀ k, lookup c2.requestBodies k = none → lookup c1.requestBodies k = none) ∧
  (∀ k, lookup c2.responses k = none → lookup c1.responses k = none)

theorem missPreserved_refl (c : Components) : missPreserved c c :=
  ⟨fun _ h => h, fun _ h => h, fun _ h => h, fun _ h => h⟩

theorem missPreserved_trans {c1 c2 c3 : Components}
    (h12 : missPreserved c1 c2) (h23 : missPreserved c2 c3) : missPreserved c1 c3 :=
  ⟨fun k h => h12.1 k (h23.1 k h),
   fun k h => h12.2.1 k (h23.2.1 k h),
   fun k h => h12.2.2.1 k (h23.2.2.1 k h),
   fun k h => h12.2.2.2 k (h23.2.2.2 k h)⟩

theorem refMiss_mono {c1 c2 : Components} {m r : String}
    (hp : missPreserved c1 c2) (h : refMiss c2 m r) : refMiss c1 m r := by
  rcases h with ⟨hm, hl⟩ | ⟨hm, hl⟩ | ⟨hm, hl⟩ | ⟨hm, hl⟩
  · exact Or.inl ⟨hm, hp.2.1 _ hl⟩
  · exact Or.inr (Or.inl ⟨hm, hp.1 _ hl⟩)
  · exact Or.inr (Or.inr (Or.inl ⟨hm, hp.2.2.1 _ hl⟩))
  · exact Or.inr (Or.inr (Or.inr ⟨hm, hp.2.2.2 _ hl⟩))

theorem lookup_map_update_none {α : Type} (l : List (String × α)) (name k : String)
    (v : α)
    (h : lookup (l.map (fun kv => if kv.1 = name then (kv.1, v) else kv)) k = none) :
    lookup l k = none := by
  induction l with
  | nil => rfl
  | cons kv l ih =>
    rw [List.map_cons] at h
    by_cases hn : kv.1 = name
    · rw [if_pos hn] at h
      rw [lookup_cons] at h ⊢
      by_cases hk : kv.1 = k
      · rw [if_pos hk] at h
        simp at h
      · rw [if_neg hk] at h ⊢
        exact ih h
    · rw [if_neg hn] at h
      rw [lookup_cons] at h ⊢
      by_cases hk : kv.1 = k
      · rw [if_pos hk] at h
        simp at h
      · rw [if_neg hk] at h ⊢
        exact ih h

theorem updateRB_missPreserved (comps : Components) (name : String) (rb : RequestBody) :
    missPreserved comps (updateRB comps name rb) := by
  refine ⟨fun _ h => h, fun _ h => h, ?_, fun _ h => h⟩
  intro k h
  exact lookup_map_update_none comps.requestBodies name k (some rb) h

theorem updateRB_refs (comps : Components) (name : String) (rb : RequestBody) :
    compsRefs (updateRB comps name rb) ⊆ rbRefs (some rb) ++ compsRefs comps := by
  intro r hr
  simp only [compsRefs, updateRB, List.mem_append] at hr
  rcases hr with ((hr | hr) | hr) | hr
  · simp [compsRefs, hr]
  · simp [compsRefs, hr]
  · rw [List.mem_flatMap] at hr
    obtain ⟨kv', hkv', hrkv⟩ := hr
    rw [List.mem_map] at hkv'
    obtain ⟨kv, hkv, heq⟩ := hkv'
    by_cases hn : kv.1 = name
    · rw [if_pos hn] at heq
      rw [← heq] at hrkv
      simp [hrkv]
    · rw [if_neg hn] at heq
      rw [← heq] at hrkv
      have : r ∈ comps.requestBodies.flatMap (fun kv => rbRefs kv.2) :=
        List.mem_flatMap.mpr ⟨kv, hkv, hrkv⟩
      simp [compsRefs, this]
  · simp [compsRefs, hr]

theorem resolveSchema_refs (comps : Components) (s : Option Schema) :
    schemaRefs (resolveSchema comps s).1 ⊆
      schemaRefs s ++ comps.schemas.flatMap (fun kv => schemaRefs kv.2) := by
  cases s with
  | none => simp [resolveSchema, schemaRefs]
  | some sch =>
    by_cases href : sch.ref = ""
    · simp [resolveSchema, href, schemaRefs]
    · cases hl : lookup comps.schemas (extractNameFromRef sch.ref "schemas") with
      | none =>
        simp only [resolveSchema, if_pos href, hl]
        intro r hr
        simp [hr]
      | some v =>
        simp only [resolveSchema, if_pos href, hl]
        intro r hr
        have := lookup_refs_sub schemaRefs comps.schemas _ v hl hr
        simp [this]

theorem resolveMediaEntry_refs (comps : Components) (kv : String × Option MediaType) :
    mediaEntryRefs (resolveMediaEntry comps kv).1 ⊆
      mediaEntryRefs kv ++ comps.schemas.flatMap (fun kv => schemaRefs kv.2) := by
  obtain ⟨k, mv⟩ := kv
  cases mv with
  | none => simp [resolveMediaEntry, mediaEntryRefs]
  | some mt =>
    cases hms : mt.schema with
    | none => simp [resolveMediaEntry, hms, mediaEntryRefs]
    | some sch =>
      rcases hrs : resolveSchema comps (some sch) with ⟨s', e⟩
      have heq : resolveMediaEntry comps (k, some mt) =
          ((k, some { mt with schema := s' }), e) := by
        simp [resolveMediaEntry, hms, hrs]
      rw [heq]
      intro r hr
      simp only [mediaEntryRefs, hms] at hr ⊢
      have hsub := resolveSchema_refs comps (some sch)
      rw [hrs] at hsub
      have := hsub hr
      simpa [schemaRefs] using this

theorem resolveList_mem {α : Type} (f : α → α × Option String) (xs : List α) :
    ∀ (xs' : List α) (e : Option String), resolveList f xs = (xs', e) →
    ∀ y ∈ xs', y ∈ xs ∨ ∃ x ∈ xs, y = (f x).1 := by
  induction xs with
  | nil =>
    intro xs' e h
    simp only [resolveList, Prod.mk.injEq] at h
    rw [← h.1]
    simp
  | cons x xs ih =>
    intro xs' e h
    rcases hfx : f x with ⟨x', e0⟩
    cases e0 with
    | some m =>
      simp only [resolveList, hfx, Prod.mk.injEq] at h
      rw [← h.1]
      intro y hy
      rcases List.mem_cons.mp hy with hy | hy
      · exact Or.inr ⟨x, by simp, by rw [hy, hfx]⟩
      · exact Or.inl (by simp [hy])
    | none =>
      rcases hrest : resolveList f xs with ⟨rest', e'⟩
      simp only [resolveList, hfx, hrest, Prod.mk.injEq] at h
      rw [← h.1]
      intro y hy
      rcases List.mem_cons.mp hy with hy | hy
      · exact Or.inr ⟨x, by simp, by rw [hy, hfx]⟩
      · rcases ih rest' e' hrest y hy with hm | ⟨x0, hx0, hy0⟩
        · exact Or.inl (by simp [hm])
        · exact Or.inr ⟨x0, by simp [hx0], hy0⟩

theorem resolveContent_refs (comps : Components) (c c' : List (String × Option MediaType))
    (e : Option String) (h : resolveContent comps c = (c', e)) :
    contentRefs c' ⊆
      contentRefs c ++ comps.schemas.flatMap (fun kv => schemaRefs kv.2) := by
  intro r hr
  rw [contentRefs, List.mem_flatMap] at hr
  obtain ⟨y, hy, hry⟩ := hr
  rcases resolveList_mem (resolveMediaEntry comps) c c' e h y hy with hm | ⟨x, hx, hyx⟩
  · have : r ∈ contentRefs c := List.mem_flatMap.mpr ⟨y, hm, hry⟩
    simp [this]
  · rw [hyx] at hry
    have := resolveMediaEntry_refs comps x hry
    rw [List.mem_append] at this
    rcases this with hin | hin
    · have : r ∈ contentRefs c := List.mem_flatMap.mpr ⟨x, hx, hin⟩
      simp [this]
    · simp [hin]

theorem resolveRequestBody_err_refs (comps : Components) (slot : Option RequestBody)
    (slot' : Option RequestBody) (comps2 : Components) (out : ResolveOutcome)
    (h : resolveRequestBody comps slot = (slot', comps2, out)) :
    (compsRefs comps2 ⊆ compsRefs comps ∧ missPreserved comps comps2) ∧
    (∀ m, out = .err m → ∃ r ∈ rbRefs slot ++ compsRefs comps, refMiss comps m r) := by
  cases slot with
  | none =>
    simp only [resolveRequestBody, Prod.mk.injEq] at h
    obtain ⟨_, h2, h3⟩ := h
    subst h2
    refine ⟨⟨fun r hr => hr, missPreserved_refl comps⟩, ?_⟩
    intro m hm
    rw [← h3] at hm
    simp at hm
  | some rb =>
    by_cases href : rb.ref = ""
    · rcases hrc : resolveContent comps rb.content with ⟨c', e⟩
      have heq : resolveRequestBody comps (some rb) =
          (some { rb with content := c' }, comps, ofErr e) := by
        simp [resolveRequestBody, href, hrc, ofErr]
      rw [heq] at h
      simp only [Prod.mk.injEq] at h
      obtain ⟨_, h2, h3⟩ := h
      subst h2
      refine ⟨⟨fun r hr => hr, missPreserved_refl comps⟩, ?_⟩
      intro m hm
      rw [← h3] at hm
      have he : e = some m := by
        cases e with
        | none => simp [ofErr] at hm
        | some m0 => simpa [ofErr] using hm
      obtain ⟨r, hr, hmiss⟩ :=
        resolveContent_err comps rb.content c' m (by rw [hrc, he])
      exact ⟨r, by simp [rbRefs, hr], hmiss⟩
    · cases hl : lookup comps.requestBodies (extractNameFromRef rb.ref "requestBodies") with
      | none =>
        have heq : resolveRequestBody comps (some rb) =
            (some rb, comps, .err ("unresolved requestBody reference: " ++ rb.ref)) := by
          simp [resolveRequestBody, if_pos href, hl]
        rw [heq] at h
        simp only [Prod.mk.injEq] at h
        obtain ⟨_, h2, h3⟩ := h
        subst h2
        refine ⟨⟨fun r hr => hr, missPreserved_refl comps⟩, ?_⟩
        intro m hm
        rw [← h3] at hm
        have hm' : m = "unresolved requestBody reference: " ++ rb.ref := by
          cases hm
          rfl
        exact ⟨rb.ref, by simp [rbRefs],
          Or.inr (Or.inr (Or.inl ⟨hm', hl⟩))⟩
      | some v =>
        cases v with
        | none =>
          have heq : resolveRequestBody comps (some rb) = (none, comps, .nilPanic) := by
            simp [resolveRequestBody, if_pos href, hl]
          rw [heq] at h
          simp only [Prod.mk.injEq] at h
          obtain ⟨_, h2, h3⟩ := h
          subst h2
          refine ⟨⟨fun r hr => hr, missPreserved_refl comps⟩, ?_⟩
          intro m hm
          rw [← h3] at hm
          simp at hm
        | some target =>
          rcases hrc : resolveContent comps target.content with ⟨c', e⟩
          have heq : resolveRequestBody comps (some rb) =
              (some { target with content := c' },
                updateRB comps (extractNameFromRef rb.ref "requestBodies")
                  { target with content := c' },
                ofErr e) := by
            simp [resolveRequestBody, if_pos href, hl, hrc, ofErr]
          rw [heq] at h
          simp only [Prod.mk.injEq] at h
          obtain ⟨_, h2, h3⟩ := h
          subst h2
          have htargetsub : rbRefs (some target) ⊆ compsRefs comps := by
            intro r hr
            have := lookup_refs_sub rbRefs comps.requestBodies _ (some target) hl hr
            simp [compsRefs, this]
          have hcontentsub : contentRefs target.content ⊆ compsRefs comps := by
            intro r hr
            exact htargetsub (by simp [rbRefs, hr])
          constructor
          · refine ⟨?_, updateRB_missPreserved comps _ _⟩
            intro r hr
            have hup := updateRB_refs comps
              (extractNameFromRef rb.ref "requestBodies")
              { target with content := c' } hr
            rw [List.mem_append] at hup
            rcases hup with hin | hin
            · simp only [rbRefs, List.mem_cons] at hin
              rcases hin with hin | hin
              · exact htargetsub (by simp [rbRefs, hin])
              · have hsub := resolveContent_refs comps target.content c' e hrc hin
                rw [List.mem_append] at hsub
                rcases hsub with h4 | h4
                · exact hcontentsub h4
                · simp [compsRefs, h4]
            · exact hin
          · intro m hm
            rw [← h3] at hm
            have he : e = some m := by
              cases e with
              | none => simp [ofErr] at hm
              | some m0 => simpa [ofErr] using hm
            obtain ⟨r, hr, hmiss⟩ :=
              resolveContent_err comps target.content c' m (by rw [hrc, he])
            exact ⟨r, by simp [hcontentsub hr], hmiss⟩

theorem resolveResponseEntry_err (comps : Components) (kv : String × Option Response)
    (m : String) (h : (resolveResponseEntry comps kv).2 = some m) :
    ∃ r ∈ respRefs kv.2, refMiss comps m r := by
  obtain ⟨code, mv⟩ := kv
  cases mv with
  | none => simp [resolveResponseEntry] at h
  | some resp =>
    by_cases href : resp.ref = ""
    · rcases hrc : resolveContent comps resp.content with ⟨c', e⟩
      have heq : resolveResponseEntry comps (code, some resp) =
          ((code, some { resp with content := c' }), e) := by
        simp [resolveResponseEntry, href, hrc]
      rw [heq] at h
      have he : e = some m := h
      obtain ⟨r, hr, hmiss⟩ :=
        resolveContent_err comps resp.content c' m (by rw [hrc, he])
      exact ⟨r, by simp [respRefs, hr], hmiss⟩
    · cases hl : lookup comps.responses (extractNameFromRef resp.ref "responses") with
      | some v =>
        rcases hrc : resolveContent comps resp.content with ⟨c', e⟩
        have heq : resolveResponseEntry comps (code, some resp) = ((code, v), e) := by
          simp [resolveResponseEntry, if_pos href, hl, hrc]
        rw [heq] at h
        have he : e = some m := h
        obtain ⟨r, hr, hmiss⟩ :=
          resolveContent_err comps resp.content c' m (by rw [hrc, he])
        exact ⟨r, by simp [respRefs, hr], hmiss⟩
      | none =>
        have heq : resolveResponseEntry comps (code, some resp) =
            ((code, some resp), some ("unresolved response reference: " ++ resp.ref)) := by
          simp [resolveResponseEntry, if_pos href, hl]
        rw [heq] at h
        have hm : m = "unresolved response reference: " ++ resp.ref := by
          simp only [Option.some_inj] at h
          exact h.symm
        exact ⟨resp.ref, by simp [respRefs],
          Or.inr (Or.inr (Or.inr ⟨hm, hl⟩))⟩

theorem resolveEndpoint_err_refs (comps : Components) (ep ep' : Endpoint)
    (comps2 : Components) (out : ResolveOutcome)
    (h : resolveEndpoint comps ep = (ep', comps2, out)) :
    (compsRefs comps2 ⊆ compsRefs comps ∧ missPreserved comps comps2) ∧
    (∀ m, out = .err m → ∃ r ∈ endpointRefs ep ++ compsRefs comps, refMiss comps m r) := by
  rcases hps : resolveList (resolveParamSlot comps) ep.parameters with ⟨ps, e1⟩
  cases e1 with
  | some m0 =>
    simp only [resolveEndpoint, hps, Prod.mk.injEq] at h
    obtain ⟨_, h2, h3⟩ := h
    subst h2
    refine ⟨⟨fun r hr => hr, missPreserved_refl comps⟩, ?_⟩
    intro m hm
    rw [← h3] at hm
    have hm0 : m0 = m := by
      cases hm
      rfl
    subst hm0
    obtain ⟨slot, hslot, hserr⟩ :=
      resolveList_err (resolveParamSlot comps) ep.parameters ps m0 hps
    obtain ⟨r, hr, hmiss⟩ := resolveParamSlot_err comps slot m0 hserr
    refine ⟨r, ?_, hmiss⟩
    have : r ∈ ep.parameters.flatMap paramRefs := List.mem_flatMap.mpr ⟨slot, hslot, hr⟩
    simp [endpointRefs, this]
  | none =>
    rcases hrb : resolveRequestBody comps ep.requestBody with ⟨rb', comps', out2⟩
    obtain ⟨⟨hsub', hmp'⟩, herr'⟩ :=
      resolveRequestBody_err_refs comps ep.requestBody rb' comps' out2 hrb
    cases out2 with
    | ok =>
      rcases hrs : resolveList (resolveResponseEntry comps') ep.responses with ⟨rs, e3⟩
      simp only [resolveEndpoint, hps, hrb, hrs, Prod.mk.injEq] at h
      obtain ⟨_, h2, h3⟩ := h
      subst h2
      refine ⟨⟨hsub', hmp'⟩, ?_⟩
      intro m hm
      rw [← h3] at hm
      have he3 : e3 = some m := by
        cases e3 with
        | none => simp [ofErr] at hm
        | some m0 => simpa [ofErr] using hm
      obtain ⟨kv, hkv, hkerr⟩ :=
        resolveList_err (resolveResponseEntry comps') ep.responses rs m (by rw [hrs, he3])
      obtain ⟨r, hr, hmiss⟩ := resolveResponseEntry_err comps' kv m hkerr
      refine ⟨r, ?_, refMiss_mono hmp' hmiss⟩
      have : r ∈ ep.responses.flatMap (fun kv => respRefs kv.2) :=
        List.mem_flatMap.mpr ⟨kv, hkv, hr⟩
      simp [endpointRefs, this]
    | err m0 =>
      simp only [resolveEndpoint, hps, hrb, Prod.mk.injEq] at h
      obtain ⟨_, h2, h3⟩ := h
      subst h2
      refine ⟨⟨hsub', hmp'⟩, ?_⟩
      intro m hm
      rw [← h3] at hm
      have hm0 : m0 = m := by
        cases hm
        rfl
      subst hm0
      obtain ⟨r, hr, hmiss⟩ := herr' m0 rfl
      refine ⟨r, ?_, hmiss⟩
      rw [List.mem_append] at hr
      rcases hr with hr | hr
      · simp [endpointRefs, hr]
      · simp [hr]
    | nilPanic =>
      simp only [resolveEndpoint, hps, hrb, Prod.mk.injEq] at h
      obtain ⟨_, h2, h3⟩ := h
      subst h2
      refine ⟨⟨hsub', hmp'⟩, ?_⟩
      intro m hm
      rw [← h3] at hm
      simp at hm

theorem resolveEndpoints_err (eps : List Endpoint) :
    ∀ (comps : Components) (eps' : List Endpoint) (comps2 : Components)
      (out : ResolveOutcome),
    resolveEndpoints comps eps = (eps', comps2, out) →
    (compsRefs comps2 ⊆ compsRefs comps ∧ missPreserved comps comps2) ∧
    (∀ m, out = .err m →
      (∃ r ∈ eps.flatMap endpointRefs ++ compsRefs comps, refMiss comps m r) ∧
      ∃ i < eps.length, eps'.drop (i + 1) = eps.drop (i + 1)) := by
  induction eps with
  | nil =>
    intro comps eps' comps2 out h
    simp only [resolveEndpoints, Prod.mk.injEq] at h
    obtain ⟨_, h2, h3⟩ := h
    subst h2
    refine ⟨⟨fun r hr => hr, missPreserved_refl comps⟩, ?_⟩
    intro m hm
    rw [← h3] at hm
    simp at hm
  | cons ep rest ih =>
    intro comps eps' comps2 out h
    rcases hep : resolveEndpoint comps ep with ⟨ep1, comps1, out0⟩
    obtain ⟨⟨hsub1, hmp1⟩, herr1⟩ :=
      resolveEndpoint_err_refs comps ep ep1 comps1 out0 hep
    cases out0 with
    | ok =>
      rcases hrest : resolveEndpoints comps1 rest with ⟨rest1, comps3, outr⟩
      simp only [resolveEndpoints, hep, hrest, Prod.mk.injEq] at h
      obtain ⟨h1, h2, h3⟩ := h
      subst h2
      obtain ⟨⟨hsub2, hmp2⟩, herr2⟩ := ih comps1 rest1 comps3 outr hrest
      refine ⟨⟨fun r hr => hsub1 (hsub2 hr), missPreserved_trans hmp1 hmp2⟩, ?_⟩
      intro m hm
      rw [← h3] at hm
      obtain ⟨⟨r, hr, hmiss⟩, ⟨i, hi, hdrop⟩⟩ := herr2 m hm
      constructor
      · refine ⟨r, ?_, refMiss_mono hmp1 hmiss⟩
        rw [List.mem_append] at hr
        rcases hr with hr | hr
        · simp only [List.flatMap_cons, List.mem_append]
          left
          right
          exact hr
        · simp [hsub1 hr]
      · refine ⟨i + 1, by simpa using Nat.succ_lt_succ hi, ?_⟩
        rw [← h1]
        simpa using hdrop
    | err m0 =>
      simp only [resolveEndpoints, hep, Prod.mk.injEq] at h
      obtain ⟨h1, h2, h3⟩ := h
      subst h2
      refine ⟨⟨hsub1, hmp1⟩, ?_⟩
      intro m hm
      rw [← h3] at hm
      have hm0 : m0 = m := by
        cases hm
        rfl
      subst hm0
      obtain ⟨r, hr, hmiss⟩ := herr1 m0 rfl
      constructor
      · refine ⟨r, ?_, hmiss⟩
        rw [List.mem_append] at hr
        rcases hr with hr | hr
        · simp only [List.flatMap_cons, List.mem_append]
          left
          left
          exact hr
        · simp [hr]
      · refine ⟨0, by simp, ?_⟩
        rw [← h1]
        simp
    | nilPanic =>
      simp only [resolveEndpoints, hep, Prod.mk.injEq] at h
      obtain ⟨h1, h2, h3⟩ := h
      subst h2
      refine ⟨⟨hsub1, hmp1⟩, ?_⟩
      intro m hm
      rw [← h3] at hm
      simp at hm

theorem resolveEndpoints_err_loc (eps : List Endpoint) :
    ∀ (comps : Components) (eps' : List Endpoint) (comps2 : Components) (m : String),
    resolveEndpoints comps eps = (eps', comps2, .err m) →
    ∃ i, ∃ hi : i < eps.length,
      (resolveEndpoints comps (eps.take i)).2.2 = .ok ∧
      ∃ epI : Endpoint,
        resolveEndpoint (resolveEndpoints comps (eps.take i)).2.1 (eps.get ⟨i, hi⟩) =
          (epI, comps2, .err m) ∧
        eps' = (resolveEndpoints comps (eps.take i)).1 ++ epI :: eps.drop (i + 1) := by
  induction eps with
  | nil =>
    intro comps eps' comps2 m h
    simp only [resolveEndpoints, Prod.mk.injEq] at h
    exact absurd h.2.2 (by simp)
  | cons ep rest ih =>
    intro comps eps' comps2 m h
    rcases hep : resolveEndpoint comps ep with ⟨ep1, comps1, out0⟩
    cases out0 with
    | err m0 =>
      simp only [resolveEndpoints, hep, Prod.mk.injEq] at h
      obtain ⟨h1, h2, h3⟩ := h
      subst h2
      have hm : m0 = m := by
        cases h3
        rfl
      subst hm
      refine ⟨0, by simp, rfl, ep1, ?_, ?_⟩
      · exact hep
      · rw [← h1]
        simp [resolveEndpoints]
    | nilPanic =>
      simp only [resolveEndpoints, hep, Prod.mk.injEq] at h
      exact absurd h.2.2 (by simp)
    | ok =>
      rcases hrest : resolveEndpoints comps1 rest with ⟨rest1, comps3, outr⟩
      simp only [resolveEndpoints, hep, hrest, Prod.mk.injEq] at h
      obtain ⟨h1, h2, h3⟩ := h
      subst h2
      obtain ⟨i, hi, hok, epI, herr, hsplit⟩ :=
        ih comps1 rest1 comps3 m (by rw [hrest, h3])
      have hstep : ∀ l : List Endpoint, resolveEndpoints comps (ep :: l) =
          (ep1 :: (resolveEndpoints comps1 l).1,
            (resolveEndpoints comps1 l).2.1, (resolveEndpoints comps1 l).2.2) := by
        intro l
        rcases hl : resolveEndpoints comps1 l with ⟨a, b, c⟩
        simp [resolveEndpoints, hep, hl]
      refine ⟨i + 1, by simpa using Nat.succ_lt_succ hi, ?_, epI, ?_, ?_⟩
      · rw [List.take_succ_cons, hstep]
        exact hok
      · rw [List.take_succ_cons, hstep]
        exact herr
      · rw [← h1, List.take_succ_cons, hstep, List.drop_succ_cons]
        simp [hsplit]

/-- C1: whenever `ResolveReferences` fails, it fails with a ReferenceError
whose message is exactly `unresolved <category> reference: <descriptor>` for
a descriptor occurring in the document whose name segment is absent from
the matching Components sub-table; the error is a single synchronous value
(never a collection); and it is returned at the first endpoint whose
processing misses — there is an index `i` such that every endpoint before
`i` resolved with success, the error is produced exactly by processing
endpoint `i`, and the resulting document consists of the resolved prefix,
the partially processed endpoint `i`, and the untouched original suffix:
no endpoint past the failure point is processed. -/
theorem claim_C1 (doc doc' : APIDocument) (m : String)
    (h : ResolveReferences doc = (doc', .err m)) :
    ∃ comps, doc.components = some comps ∧
      (∃ r ∈ docRefs doc, refMiss comps m r) ∧
      ∃ i, ∃ hi : i < doc.endpoints.length,
        (resolveEndpoints comps (doc.endpoints.take i)).2.2 = .ok ∧
        ∃ epI comps2,
          resolveEndpoint (resolveEndpoints comps (doc.endpoints.take i)).2.1
            (doc.endpoints.get ⟨i, hi⟩) = (epI, comps2, .err m) ∧
          doc'.endpoints = (resolveEndpoints comps (doc.endpoints.take i)).1 ++
            epI :: doc.endpoints.drop (i + 1) := by
  cases hc : doc.components with
  | none =>
    simp only [ResolveReferences, hc, Prod.mk.injEq] at h
    exact absurd h.2 (by simp)
  | some comps =>
    rcases hre : resolveEndpoints comps doc.endpoints with ⟨eps, comps', out⟩
    simp only [ResolveReferences, hc, hre, Prod.mk.injEq] at h
    obtain ⟨h1, h2⟩ := h
    obtain ⟨_, herr⟩ := resolveEndpoints_err doc.endpoints comps eps comps' out hre
    obtain ⟨⟨r, hr, hmiss⟩, _⟩ := herr m h2
    obtain ⟨i, hi, hok, epI, herrI, hsplit⟩ :=
      resolveEndpoints_err_loc doc.endpoints comps eps comps' m (by rw [hre, h2])
    refine ⟨comps, rfl, ⟨r, ?_, hmiss⟩, ⟨i, hi, hok, epI, comps', herrI, ?_⟩⟩
    · simpa [docRefs, hc] using hr
    · have hdoc' : doc'.endpoints = eps := by rw [← h1]
      rw [hdoc']
      exact hsplit

/-- A document whose first endpoint resolves and whose second endpoint
references a missing parameter component; a third endpoint with another
dangling descriptor follows, which must never be processed. -/
def docMissing : APIDocument :=
  mkDoc [mkEndpoint "/ok" [some (refOnlyParam "#/components/parameters/Good")] [],
         mkEndpoint "/m" [some (refOnlyParam "#/components/parameters/Nope")] [],
         mkEndpoint "/after" [some (refOnlyParam "#/components/parameters/AlsoNope")] []]
    (some { schemas := []
            parameters := [("Good", some paramA)]
            requestBodies := []
            responses := [] })

/-- The document state `ResolveReferences` leaves behind on `docMissing`:
the first endpoint resolved, the second and third untouched. -/
def docMissingAfter : APIDocument :=
  mkDoc [mkEndpoint "/ok" [some paramA] [],
         mkEndpoint "/m" [some (refOnlyParam "#/components/parameters/Nope")] [],
         mkEndpoint "/after" [some (refOnlyParam "#/components/parameters/AlsoNope")] []]
    (some { schemas := []
            parameters := [("Good", some paramA)]
            requestBodies := []
            responses := [] })

/-- C1 witness: instantiating the theorem on `docMissing`, whose resolution
fails at the second endpoint with the parameter ReferenceError naming the
dangling descriptor, after resolving the first endpoint and before touching
the third. -/
theorem claim_C1_witness :
    ∃ comps, docMissing.components = some comps ∧
      (∃ r ∈ docRefs docMissing,
        refMiss comps "unresolved parameter reference: #/components/parameters/Nope" r) ∧
      ∃ i, ∃ hi : i < docMissing.endpoints.length,
        (resolveEndpoints comps (docMissing.endpoints.take i)).2.2 = .ok ∧
        ∃ epI comps2,
          resolveEndpoint (resolveEndpoints comps (docMissing.endpoints.take i)).2.1
            (docMissing.endpoints.get ⟨i, hi⟩) = (epI, comps2, .err
              "unresolved parameter reference: #/components/parameters/Nope") ∧
          docMissingAfter.endpoints =
            (resolveEndpoints comps (docMissing.endpoints.take i)).1 ++
              epI :: docMissing.endpoints.drop (i + 1) :=
  claim_C1 docMissing docMissingAfter
    "unresolved parameter reference: #/components/parameters/Nope" (by decide)

/-! ## C5: legacy-dialect normalization -/

/-- The operation a `PathItem` declares for a given upper-case method name
(none for unrecognized methods). -/
def methodOp (item : PathItem) (m : String) : Option Operation :=
  if m = "GET" then item.get
  else if m = "PUT" then item.put
  else if m = "POST" then item.post
  else if m = "DELETE" then item.delete
  else if m = "OPTIONS" then item.options
  else if m = "HEAD" then item.head
  else if m = "PATCH" then item.patch
  else none

theorem countP_branch (p mth mq : String) (o : Option Operation) :
    (match o with
     | some op => [createEndpointFromOperation p mth op]
     | none => ([] : List Endpoint)).countP
        (fun ep : Endpoint => ep.path == p && ep.method == mq) =
      (if o.isSome ∧ mth = mq then 1 else 0) := by
  cases o with
  | none => simp
  | some op =>
    by_cases hm : mth = mq
    · simp [List.countP_cons, createEndpointFromOperation, hm]
    · simp [List.countP_cons, createEndpointFromOperation, hm]

theorem mem_branch {p mth : String} {o : Option Operation} {ep : Endpoint} :
    ep ∈ (match o with
          | some op => [createEndpointFromOperation p mth op]
          | none => ([] : List Endpoint)) ↔
      ∃ op, o = some op ∧ ep = createEndpointFromOperation p mth op := by
  cases o <;> simp

/-- C5: normalizing a legacy-dialect document yields, per declared path,
exactly one Endpoint for each of the seven recognized methods the path
declares and zero for absent ones; every synthesized Endpoint takes its
path and method from the outer keys and its
summary/description/parameters/responses from the per-method operation,
with RequestBody left empty; the document's servers list is the empty
sequence. -/
theorem claim_C5 (sw : SwaggerSpec) :
    (convertSwaggerToAPIDocument sw).servers = [] ∧
    (convertSwaggerToAPIDocument sw).endpoints =
      sw.paths.flatMap (fun kv => endpointsOfPathItem kv.1 kv.2) ∧
    (∀ (p : String) (item : PathItem) (mq : String),
      mq ∈ ["GET", "PUT", "POST", "DELETE", "OPTIONS", "HEAD", "PATCH"] →
      (endpointsOfPathItem p item).countP
          (fun ep => ep.path == p && ep.method == mq) =
        (if (methodOp item mq).isSome then 1 else 0)) ∧
    (∀ (p : String) (item : PathItem) (ep : Endpoint),
      ep ∈ endpointsOfPathItem p item →
      ep.path = p ∧ ∃ op, methodOp item ep.method = some op ∧
        ep = createEndpointFromOperation p ep.method op) ∧
    (∀ (p mth : String) (op : Operation),
      createEndpointFromOperation p mth op =
        { path := p, method := mth, summary := op.summary,
          description := op.description,
          parameters := op.parameters.map (fun q => some q),
          requestBody := none,
          responses := op.responses.map (fun kv => (kv.1, some kv.2)) }) := by
  refine ⟨rfl, rfl, ?_, ?_, ?_⟩
  · intro p item mq hmq
    have hcount : (endpointsOfPathItem p item).countP
        (fun ep => ep.path == p && ep.method == mq) =
        (if item.get.isSome ∧ "GET" = mq then 1 else 0) +
        (if item.post.isSome ∧ "POST" = mq then 1 else 0) +
        (if item.put.isSome ∧ "PUT" = mq then 1 else 0) +
        (if item.delete.isSome ∧ "DELETE" = mq then 1 else 0) +
        (if item.patch.isSome ∧ "PATCH" = mq then 1 else 0) +
        (if item.head.isSome ∧ "HEAD" = mq then 1 else 0) +
        (if item.options.isSome ∧ "OPTIONS" = mq then 1 else 0) := by
      simp only [endpointsOfPathItem, List.countP_append, countP_branch]
    rw [hcount]
    simp only [List.mem_cons, List.not_mem_nil, or_false] at hmq
    rcases hmq with h | h | h | h | h | h | h
    · subst h
      simp [methodOp]
    · subst h
      simp [methodOp]
    · subst h
      simp [methodOp]
    · subst h
      simp [methodOp]
    · subst h
      simp [methodOp]
    · subst h
      simp [methodOp]
    · subst h
      simp [methodOp]
  · intro p item ep hmem
    simp only [endpointsOfPathItem, List.mem_append, mem_branch] at hmem
    rcases hmem with ((((((⟨op, hop, hep⟩ | ⟨op, hop, hep⟩) | ⟨op, hop, hep⟩) |
        ⟨op, hop, hep⟩) | ⟨op, hop, hep⟩) | ⟨op, hop, hep⟩) | ⟨op, hop, hep⟩) <;>
      subst hep <;>
      exact ⟨rfl, op, by simp [methodOp, createEndpointFromOperation, hop], rfl⟩
  · intro p mth op
    rfl

/-- The sample operation used by the C5 witness. -/
def opS : Operation :=
  { summary := "S"
    description := ""
    operationID := ""
    parameters := []
    responses := [("200", { description := "OK", content := [], ref := "" })] }

/-- A path item declaring only GET, used by the C5 witness. -/
def itemGetOnly : PathItem :=
  { get := some opS
    put := none
    post := none
    delete := none
    options := none
    head := none
    patch := none }

/-- A minimal Swagger spec, used by the C5 witness. -/
def swSample : SwaggerSpec :=
  { swagger := "2.0"
    info := { title := "T", description := "", version := "1" }
    basePath := ""
    paths := [("/x", itemGetOnly)] }

/-- C5 witness: a path item declaring only GET yields exactly one GET
endpoint and zero POST endpoints. -/
theorem claim_C5_witness :
    (endpointsOfPathItem "/x" itemGetOnly).countP
      (fun ep => ep.path == "/x" && ep.method == "GET") = 1 ∧
    (endpointsOfPathItem "/x" itemGetOnly).countP
      (fun ep => ep.path == "/x" && ep.method == "POST") = 0 := by
  constructor
  · have h := (claim_C5 swSample).2.2.1 "/x" itemGetOnly "GET" (by simp)
    simpa [methodOp, itemGetOnly] using h
  · have h := (claim_C5 swSample).2.2.1 "/x" itemGetOnly "POST" (by simp)
    simpa [methodOp, itemGetOnly] using h

/-! ## C7: the truncation threshold reads the collapsed length -/

theorem asString_length (l : List Char) : (List.asString l).length = l.length := rfl

theorem toList_asString (l : List Char) : (List.asString l).toList = l := rfl

theorem fieldsGo_ws (cs : List Char) (h : ∀ c ∈ cs, c.isWhitespace = true) :
    fieldsGo cs [] = [] := by
  induction cs with
  | nil => rfl
  | cons c cs ih =>
    rw [fieldsGo, if_pos (h c (by simp))]
    simp only [List.isEmpty_nil, if_pos rfl]
    exact ih (fun c0 hc0 => h c0 (by simp [hc0]))

theorem fieldsGo_nws (cs : List Char) :
    ∀ cur : List Char, (∀ c ∈ cs, c.isWhitespace = false) →
    fieldsGo cs cur =
      (if cur.isEmpty ∧ cs.isEmpty then [] else [cur.reverse ++ cs]) := by
  induction cs with
  | nil =>
    intro cur _
    rw [fieldsGo]
    by_cases hcur : cur.isEmpty
    · simp [hcur]
    · simp [hcur]
  | cons c cs ih =>
    intro cur h
    rw [fieldsGo, if_neg (by rw [h c (by simp)]; exact Bool.false_ne_true)]
    rw [ih (c :: cur) (fun c0 hc0 => h c0 (by simp [hc0]))]
    simp [List.append_assoc]

theorem minify_nws (s : String) (hne : s.toList ≠ [])
    (h : ∀ c ∈ s.toList, c.isWhitespace = false) : minifyText s = s := by
  rw [minifyText, fields, fieldsGo_nws s.toList [] h]
  rw [if_neg (fun hcon => hne (by simpa using hcon.2))]
  simp only [List.reverse_nil, List.nil_append, List.map_cons, List.map_nil]
  show String.intercalate " " [List.asString s.toList] = s
  rfl

/-- A 20001-character all-whitespace description. -/
def sp20001 : String := List.asString (List.replicate 20001 ' ')

/-- A 20001-character whitespace-free description. -/
def a20001 : String := List.asString (List.replicate 20001 'a')

theorem minify_sp20001 : minifyText sp20001 = "" := by
  rw [minifyText, fields, sp20001, toList_asString]
  rw [fieldsGo_ws _ (fun c hc => by rw [List.eq_of_mem_replicate hc]; rfl)]
  rfl

theorem minify_a20001 : minifyText a20001 = a20001 := by
  refine minify_nws a20001
    (by rw [a20001, toList_asString]
        exact List.ne_nil_of_length_pos (by rw [List.length_replicate]; omega)) ?_
  intro c hc
  rw [a20001, toList_asString] at hc
  rw [List.eq_of_mem_replicate hc]
  rfl

/-- C7 counterexample: on a description whose *pre-collapse* length exceeds
the 20000 threshold but whose collapsed form does not, no truncation
happens: the rendered description is empty, not the claimed
first-2000-characters-plus-ellipsis. -/
theorem claim_C7_cex :
    20000 < sp20001.length ∧
    endpointDesc sp20001 = "" ∧
    endpointDesc sp20001 ≠ strTake (minifyText sp20001) 2000 ++ "..." := by
  have hlen : sp20001.length = 20001 := by
    rw [sp20001, asString_length, List.length_replicate]
  have hdesc : endpointDesc sp20001 = "" := by
    rw [endpointDesc, minify_sp20001]
    rfl
  refine ⟨by rw [hlen]; exact Nat.lt_succ_self 20000, hdesc, ?_⟩
  rw [hdesc, minify_sp20001]
  decide

/-- C7 amended: the truncation threshold check reads the *post-collapse*
(collapsed) length of the endpoint description, not the pre-collapse one:
the result depends only on the collapsed text, text whose collapsed length
exceeds 20000 is cut to the first 2000 characters plus an ellipsis (the
20000/2000 asymmetry is real), and text whose collapsed length is within
the threshold is emitted collapsed and untruncated. -/
theorem claim_C7 :
    (∀ d1 d2 : String, minifyText d1 = minifyText d2 →
      endpointDesc d1 = endpointDesc d2) ∧
    (∀ d : String, 20000 < (minifyText d).length →
      endpointDesc d = strTake (minifyText d) 2000 ++ "...") ∧
    (∀ d : String, (minifyText d).length ≤ 20000 →
      endpointDesc d = minifyText d) := by
  refine ⟨?_, ?_, ?_⟩
  · intro d1 d2 h
    rw [endpointDesc, endpointDesc, h]
  · intro d h
    rw [endpointDesc, if_pos (by omega)]
  · intro d h
    rw [endpointDesc, if_neg (by omega)]

/-- C7 witness: the 20001-`a` description is collapsed to itself (length
20001 > 20000) and truncated to 2000 characters plus ellipsis, while a
short description is emitted collapsed. -/
theorem claim_C7_witness :
    endpointDesc a20001 = strTake a20001 2000 ++ "..." ∧
    endpointDesc " x  y " = minifyText " x  y " := by
  constructor
  · have hgt : 20000 < (minifyText a20001).length := by
      rw [minify_a20001, a20001, asString_length, List.length_replicate]
      exact Nat.lt_succ_self 20000
    have h := claim_C7.2.1 a20001 hgt
    rwa [minify_a20001] at h
  · exact claim_C7.2.2 " x  y " (by decide)

/-! ## C8: empty or all-whitespace input -/

theorem trimSpace_ws (cs : List Char) (h : ∀ c ∈ cs, c.isWhitespace = true) :
    trimSpace cs = [] := by
  rw [trimSpace]
  have hdrop : cs.dropWhile Char.isWhitespace = [] := by
    rw [List.dropWhile_eq_nil_iff]
    intro c hc
    exact h c hc
  rw [hdrop]
  rfl

/-- C8: loading empty or all-whitespace input yields the zero-valued
Document with no error regardless of the decoders, and rendering that
Document still produces the header lines with empty title and version and
the placeholder description. -/
theorem claim_C8 (data : String)
    (dk : String → Except String (List String))
    (ds : String → Except String SwaggerSpec)
    (dd : String → Except String APIDocument)
    (h : ∀ c ∈ data.toList, c.isWhitespace = true) :
    LoadAPISpec data dk ds dd = .ok emptyAPIDocument ∧
    RenderText emptyAPIDocument =
      some "API:  (v)\n\nDESCRIPTION:\n(None or your description here)\n\n" := by
  constructor
  · have ht : trimSpace data.toList = [] := trimSpace_ws data.toList h
    rw [LoadAPISpec]
    rw [if_pos (by rw [ht]; rfl)]
  · rfl

/-- C8 witness: a one-space input file loads to the empty document under
arbitrary (here: always-failing) decoders, and the empty document renders
to the bare header. -/
theorem claim_C8_witness :
    LoadAPISpec " " (fun _ => .error "boom") (fun _ => .error "boom")
      (fun _ => .error "boom") = .ok emptyAPIDocument ∧
    RenderText emptyAPIDocument =
      some "API:  (v)\n\nDESCRIPTION:\n(None or your description here)\n\n" :=
  claim_C8 " " _ _ _ (by decide)

end SwaggerToLLM
